import Mathlib

/-!
# Bit-banged I2C master for the HiTechnic protoboard (`i2c/i2c.h`)

A shallow embedding of the RobotC driver `i2c/i2c.h` and a verification of its
byte-level behaviour.

## How the C code is modelled

* The struct `I2CSensor` is a Lean structure with the same fields.  The
  receive buffer is a map from index to byte; every access the C code makes
  is checked against the declared size 32, and an access outside
  `_i2c_rxBuffer[0..31]` ends the run with `outOfBounds`.
* The hardware is a `World` that is threaded through every function.  The
  driver calls `HTSPBsetupIO` / `HTSPBreadIO` (from `hitechnic-superpro.h`),
  the timer `time1[T1]` and `wait1Msec` append to a log of calls.  What the
  k-th call of `HTSPBreadIO` returns (for a given link and mask) and what the
  k-th read of `time1[T1]` yields is given by two oracles inside `World`, so a
  theorem quantified over all worlds speaks about every behaviour of the
  slave and of the timer.
* `ubyte` values are natural numbers, reduced `% 256` wherever the C code
  stores into a `ubyte` (masks, the shifted response, the buffer length, the
  address byte, the value returned by `i2c_requestFrom`).  `int` values are
  integers; the loops over them never overflow.
* Timer values are integers and the sum `beganReadTime + 1000` is taken
  exactly: both are `long`, and the timer stays far below the range of `long`.
* A C string is the list of the `char` cells (integers) starting at the
  pointer; `strlen` is the C library function.
* `for` loops with a known number of iterations are recursions on the number
  of iterations left.  The clock-stretch `while` loop can spin for ever, so
  the functions that contain it take a fuel argument bounding the number of
  polls of one wait; running out of it gives `outOfFuel`.
-/

namespace I2C

/-! ## Data model -/

/-- The two logical open-drain lines. -/
inductive Line where
  | sda
  | scl
  deriving DecidableEq, Repr

/-- One entry of the call log.
`write l v link mask`: `_i2c_sda_write` / `_i2c_scl_write` was called with
value `v` and issued `HTSPBsetupIO(link, mask)`.
`read l link mask ret`: `_i2c_sda_read` / `_i2c_scl_read` issued
`HTSPBreadIO(link, mask)`, which returned `ret`.
`time t`: `time1[T1]` was read and gave `t`.
`wait ms`: `wait1Msec(ms)`. -/
inductive Event where
  | write (l : Line) (v : Bool) (link mask : Nat)
  | read (l : Line) (link mask ret : Nat)
  | time (t : Int)
  | wait (ms : Nat)
  deriving DecidableEq, Repr

/-- The line-level view of an event: a commanded state or a sample. -/
inductive LineOp where
  | set (l : Line) (v : Bool)
  | sample (l : Line)
  deriving DecidableEq, Repr

/-- The struct `I2CSensor`. -/
structure I2CSensor where
  _i2c_sda : Nat
  _i2c_scl : Nat
  _i2c_sda_state : Bool
  _i2c_scl_state : Bool
  _i2c_rxBuffer : Nat → Nat
  _i2c_rxBufferLen : Nat

/-- The global `_i2c_HTSPB`, the two hardware oracles with the number of
calls already answered, and the log of calls. -/
structure World where
  _i2c_HTSPB : Nat
  portIn : Nat → Nat → Nat → Nat
  timer : Nat → Int
  reads : Nat
  ticks : Nat
  log : List Event

/-- Result of a function that may access the buffer out of bounds or spin in
the clock-stretch wait. -/
inductive Run (α : Type) where
  | ret (val : α) (s : I2CSensor) (w : World)
  | outOfBounds
  | outOfFuel

/-- Capacity of `_i2c_rxBuffer`. -/
def rxCapacity : Nat := 32

/-! ## Hardware primitives -/

/-- The call `HTSPBsetupIO(_i2c_HTSPB, mask)` made on behalf of line `l`. -/
def HTSPBsetupIO (w : World) (l : Line) (v : Bool) (mask : Nat) : World :=
  { w with log := w.log ++ [Event.write l v w._i2c_HTSPB mask] }

/-- The call `HTSPBreadIO(_i2c_HTSPB, mask)` made on behalf of line `l`. -/
def HTSPBreadIO (w : World) (l : Line) (mask : Nat) : Nat × World :=
  let r := w.portIn w.reads w._i2c_HTSPB mask
  (r, { w with reads := w.reads + 1,
               log := w.log ++ [Event.read l w._i2c_HTSPB mask r] })

/-- Reading `time1[T1]`. -/
def time1 (w : World) : Int × World :=
  let t := w.timer w.ticks
  (t, { w with ticks := w.ticks + 1, log := w.log ++ [Event.time t] })

/-- The call `wait1Msec(ms)`. -/
def wait1Msec (w : World) (ms : Nat) : World :=
  { w with log := w.log ++ [Event.wait ms] }

/-- The `ubyte mask` computed in both line-write functions. -/
def lineMask (s : I2CSensor) : Nat :=
  (((if s._i2c_sda_state then 0 else 1) * s._i2c_sda) |||
   ((if s._i2c_scl_state then 0 else 1) * s._i2c_scl)) % 256

/-! ## The driver -/

def _i2c_sda_write (s : I2CSensor) (w : World) (val : Bool) : I2CSensor × World :=
  let s1 := { s with _i2c_sda_state := val }
  (s1, HTSPBsetupIO w Line.sda val (lineMask s1))

def _i2c_scl_write (s : I2CSensor) (w : World) (val : Bool) : I2CSensor × World :=
  let s1 := { s with _i2c_scl_state := val }
  (s1, HTSPBsetupIO w Line.scl val (lineMask s1))

def _i2c_sda_read (s : I2CSensor) (w : World) : Bool × World :=
  let r := HTSPBreadIO w Line.sda s._i2c_sda
  (r.1 != 0, r.2)

def _i2c_scl_read (s : I2CSensor) (w : World) : Bool × World :=
  let r := HTSPBreadIO w Line.scl s._i2c_scl
  (r.1 != 0, r.2)

def i2c_init (s : I2CSensor) : I2CSensor :=
  { s with _i2c_rxBufferLen := 0 }

/-- The function `i2c_begin(this, HTSPB, sda, scl)`; the pin numbers are taken
as naturals, the two masks are stored into `ubyte` fields. -/
def i2c_begin (s : I2CSensor) (w : World) (HTSPB sda scl : Nat) : I2CSensor × World :=
  ({ s with _i2c_sda := (1 <<< sda) % 256, _i2c_scl := (1 <<< scl) % 256 },
   { w with _i2c_HTSPB := HTSPB })

/-- The loop `for(mask = 1 << 7; mask != 0; mask >>= 1)` of the single-byte
write.  The first argument bounds the number of iterations; from mask 128 the
loop leaves after 8 of them (`i2c_write_bits_fuel`). -/
def i2c_write_bits : Nat → Nat → Nat → I2CSensor → World → I2CSensor × World
  | 0, _, _, s, w => (s, w)
  | fuel + 1, value, mask, s, w =>
    if mask = 0 then (s, w)
    else
      let b := (value &&& mask) != 0
      let r1 := _i2c_sda_write s w b
      let r2 := _i2c_scl_write r1.1 r1.2 true
      let r3 := _i2c_scl_write r2.1 r2.2 false
      i2c_write_bits fuel value ((mask >>> 1) % 256) r3.1 r3.2

/-- Single-byte `i2c_write(this, value)`. -/
def i2c_write (s : I2CSensor) (w : World) (value : Nat) : Bool × I2CSensor × World :=
  let r0 := i2c_write_bits 8 value ((1 <<< 7) % 256) s w
  let r1 := _i2c_sda_write r0.1 r0.2 true
  let r2 := _i2c_scl_write r1.1 r1.2 true
  let rd := _i2c_sda_read r2.1 r2.2
  let ack := !rd.1
  let r3 := _i2c_scl_write r2.1 rd.2 false
  let r4 := _i2c_sda_write r3.1 r3.2 false
  (ack, r4.1, r4.2)

/-- Three-argument `i2c_beginTransmission(this, address, write)`. -/
def i2c_beginTransmission (s : I2CSensor) (w : World) (address write : Nat) :
    I2CSensor × World :=
  let r1 := _i2c_sda_write s w true
  let r2 := _i2c_scl_write r1.1 r1.2 true
  let r3 := _i2c_sda_write r2.1 r2.2 false
  let r4 := _i2c_scl_write r3.1 r3.2 false
  let r5 := i2c_write r4.1 r4.2 (((address <<< 1) ||| write) % 256)
  (r5.2.1, r5.2.2)

/-- The overload `i2c_beginTransmission(this, address)`. -/
def i2c_beginTransmission_default (s : I2CSensor) (w : World) (address : Nat) :
    I2CSensor × World :=
  i2c_beginTransmission s w address 0

def i2c_endTransmission (s : I2CSensor) (w : World) : I2CSensor × World :=
  let r1 := _i2c_sda_write s w false
  let r2 := _i2c_scl_write r1.1 r1.2 true
  _i2c_sda_write r2.1 r2.2 true

/-- The loop of the array form of `i2c_write`; the first argument is the
number of iterations left (`length - i`). -/
def i2c_write_array_loop : Nat → Nat → Int → (Nat → Nat) → I2CSensor → World →
    Int × I2CSensor × World
  | 0, _, ack, _, s, w => (ack, s, w)
  | n + 1, i, ack, values, s, w =>
    let r := i2c_write s w (values i % 256)
    i2c_write_array_loop n (i + 1) (if r.1 then ack + 1 else ack) values r.2.1 r.2.2

/-- Array form `i2c_write(this, values, length)`; `values i` is `values[i]`. -/
def i2c_write_array (s : I2CSensor) (w : World) (values : Nat → Nat) (length : Int) :
    Int × I2CSensor × World :=
  i2c_write_array_loop length.toNat 0 0 values s w

/-- Outcome of one clock-stretch wait `while(!_i2c_scl_read(this))`. -/
inductive WaitResult where
  | high (w : World)
  | expired (w : World)
  | outOfFuel

/-- The clock-stretch wait; the first argument bounds the number of polls. -/
def i2c_requestFrom_wait : Nat → Int → I2CSensor → World → WaitResult
  | 0, _, _, _ => WaitResult.outOfFuel
  | fuel + 1, beganReadTime, s, w =>
    let rd := _i2c_scl_read s w
    if rd.1 then WaitResult.high rd.2
    else
      let t := time1 rd.2
      if t.1 > beganReadTime + 1000 then WaitResult.expired t.2
      else i2c_requestFrom_wait fuel beganReadTime s t.2

/-- Outcome of the inner loop `for(j=0; j<8; j++)`. -/
inductive BitsResult where
  | byte (response : Nat) (s : I2CSensor) (w : World)
  | expired (s : I2CSensor) (w : World)
  | outOfFuel

/-- The inner loop of `i2c_requestFrom`; the second argument is the number of
iterations left (`8 - j`). -/
def i2c_requestFrom_bits (fuel : Nat) : Nat → Nat → I2CSensor → World → BitsResult
  | 0, response, s, w => BitsResult.byte response s w
  | n + 1, response, s, w =>
    let response1 := (response <<< 1) % 256
    let r1 := _i2c_scl_write s w true
    let t := time1 r1.2
    match i2c_requestFrom_wait fuel t.1 r1.1 t.2 with
    | WaitResult.outOfFuel => BitsResult.outOfFuel
    | WaitResult.expired w2 => BitsResult.expired r1.1 w2
    | WaitResult.high w2 =>
      let w3 := wait1Msec w2 2
      let rd := _i2c_sda_read r1.1 w3
      let response2 := response1 ||| (if rd.1 then 1 else 0)
      let r2 := _i2c_scl_write r1.1 rd.2 false
      i2c_requestFrom_bits fuel n response2 r2.1 r2.2

/-- Outcome of the outer loop of `i2c_requestFrom`: it ran to `return quantity`,
or left through `return i` in the clock-stretch wait. -/
inductive ReadResult where
  | complete (s : I2CSensor) (w : World)
  | expired (i : Nat) (s : I2CSensor) (w : World)
  | outOfBounds
  | outOfFuel

/-- The outer loop `for(i=0; i<quantity; i++)`; the second argument is the
number of iterations left (`quantity - i`). -/
def i2c_requestFrom_loop (fuel : Nat) : Nat → Nat → I2CSensor → World → ReadResult
  | 0, _, s, w => ReadResult.complete s w
  | n + 1, i, s, w =>
    let r1 := _i2c_sda_write s w true
    match i2c_requestFrom_bits fuel 8 0 r1.1 r1.2 with
    | BitsResult.outOfFuel => ReadResult.outOfFuel
    | BitsResult.expired s2 w2 => ReadResult.expired i s2 w2
    | BitsResult.byte response s2 w2 =>
      let r2 := _i2c_sda_write s2 w2 false
      let r3 := _i2c_scl_write r2.1 r2.2 true
      let r4 := _i2c_scl_write r3.1 r3.2 false
      if r4.1._i2c_rxBufferLen < rxCapacity then
        let s5 := { r4.1 with
          _i2c_rxBuffer := fun k =>
            if k = r4.1._i2c_rxBufferLen then response else r4.1._i2c_rxBuffer k,
          _i2c_rxBufferLen := (r4.1._i2c_rxBufferLen + 1) % 256 }
        i2c_requestFrom_loop fuel n (i + 1) s5 r4.2
      else ReadResult.outOfBounds

/-- The function `i2c_requestFrom(this, address, quantity)`; the result is a
`ubyte`. -/
def i2c_requestFrom (fuel : Nat) (s : I2CSensor) (w : World) (address : Nat)
    (quantity : Int) : Run Nat :=
  let r0 := i2c_beginTransmission s w address 1
  match i2c_requestFrom_loop fuel quantity.toNat 0 r0.1 r0.2 with
  | ReadResult.complete s1 w1 => Run.ret (quantity % 256).toNat s1 w1
  | ReadResult.expired i s1 w1 => Run.ret (i % 256) s1 w1
  | ReadResult.outOfBounds => Run.outOfBounds
  | ReadResult.outOfFuel => Run.outOfFuel

def i2c_available (s : I2CSensor) : Int :=
  s._i2c_rxBufferLen

/-- The shift loop `for(i=0; i<this->_i2c_rxBufferLen-1; i++)` of `i2c_read`;
the first argument is the number of iterations left. -/
def i2c_read_shift : Nat → Nat → I2CSensor → Option I2CSensor
  | 0, _, s => some s
  | n + 1, i, s =>
    if i + 1 < rxCapacity then
      i2c_read_shift n (i + 1)
        { s with _i2c_rxBuffer := fun k =>
            if k = i then s._i2c_rxBuffer (i + 1) else s._i2c_rxBuffer k }
    else none

def i2c_read (s : I2CSensor) (w : World) : Run Nat :=
  let val := s._i2c_rxBuffer 0
  match i2c_read_shift (s._i2c_rxBufferLen - 1) 0 s with
  | none => Run.outOfBounds
  | some s1 =>
    Run.ret val { s1 with _i2c_rxBufferLen := (s1._i2c_rxBufferLen + 255) % 256 } w

/-! ## Observations on the log -/

/-- The events logged between world `w` and a later world `w1`. -/
def emitted (w w1 : World) : List Event :=
  w1.log.drop w.log.length

/-- Line-level view of one event. -/
def Event.op : Event → Option LineOp
  | Event.write l v _ _ => some (LineOp.set l v)
  | Event.read l _ _ _ => some (LineOp.sample l)
  | Event.time _ => none
  | Event.wait _ => none

/-- The line operations of a log, in order. -/
def ops (es : List Event) : List LineOp :=
  es.filterMap Event.op

/-- The masks passed to `HTSPBsetupIO`, in order. -/
def masks (es : List Event) : List Nat :=
  es.filterMap fun e =>
    match e with
    | Event.write _ _ _ m => some m
    | _ => none

/-- The line-write events of a log, in order. -/
def lineWrites (es : List Event) : List Event :=
  es.filter fun e =>
    match e with
    | Event.write _ _ _ _ => true
    | _ => false

/-- Number of times SCL is commanded high. -/
def sclPulses (es : List Event) : Nat :=
  (ops es).count (LineOp.set Line.scl true)

/-! ## Specification-side definitions and test inputs -/

/-- The mask sent when the recorded states are `sda`, `scl`. -/
def maskFor (s : I2CSensor) (sda scl : Bool) : Nat :=
  lineMask { s with _i2c_sda_state := sda, _i2c_scl_state := scl }

/-- Events of one data bit: SDA := b, SCL := high, SCL := low. -/
def bitEvents (s : I2CSensor) (link : Nat) (sclBefore b : Bool) : List Event :=
  [Event.write Line.sda b link (maskFor s b sclBefore),
   Event.write Line.scl true link (maskFor s b true),
   Event.write Line.scl false link (maskFor s b false)]

/-- Events of the acknowledge phase, `r` being what the SDA read returned. -/
def ackEvents (s : I2CSensor) (link r : Nat) : List Event :=
  [Event.write Line.sda true link (maskFor s true false),
   Event.write Line.scl true link (maskFor s true true),
   Event.read Line.sda link s._i2c_sda r,
   Event.write Line.scl false link (maskFor s true false),
   Event.write Line.sda false link (maskFor s false false)]

/-- All events of a single-byte write of `v` entered in state `s`. -/
def writeEvents (s : I2CSensor) (link v r : Nat) : List Event :=
  bitEvents s link s._i2c_scl_state (v.testBit 7) ++
  bitEvents s link false (v.testBit 6) ++
  bitEvents s link false (v.testBit 5) ++
  bitEvents s link false (v.testBit 4) ++
  bitEvents s link false (v.testBit 3) ++
  bitEvents s link false (v.testBit 2) ++
  bitEvents s link false (v.testBit 1) ++
  bitEvents s link false (v.testBit 0) ++
  ackEvents s link r

/-- The session after a write: both lines commanded low. -/
def bothLow (s : I2CSensor) : I2CSensor :=
  { s with _i2c_sda_state := false, _i2c_scl_state := false }

/-- A session on pins 0 (SDA) and 1 (SCL), both lines released, empty buffer. -/
def idleSensor : I2CSensor :=
  { _i2c_sda := 1, _i2c_scl := 2, _i2c_sda_state := true, _i2c_scl_state := true,
    _i2c_rxBuffer := fun _ => 0, _i2c_rxBufferLen := 0 }

/-- A world whose port reads `0` on every line and whose timer counts up. -/
def lowWorld : World :=
  { _i2c_HTSPB := 0, portIn := fun _ _ _ => 0, timer := fun k => k,
    reads := 0, ticks := 0, log := [] }

/-- The three line operations of data bit `k` of `v`. -/
def bitOps (v k : Nat) : List LineOp :=
  [LineOp.set Line.sda (v.testBit k), LineOp.set Line.scl true, LineOp.set Line.scl false]

/-- The line operations listed in the claim: eight data bits from bit 7 down to
bit 0, then SDA released, SCL high, one SDA sample, SCL low. -/
def claimedWriteOps (v : Nat) : List LineOp :=
  bitOps v 7 ++ bitOps v 6 ++ bitOps v 5 ++ bitOps v 4 ++
  bitOps v 3 ++ bitOps v 2 ++ bitOps v 1 ++ bitOps v 0 ++
  [LineOp.set Line.sda true, LineOp.set Line.scl true, LineOp.sample Line.sda,
   LineOp.set Line.scl false]

/-- Events of the start sequence of `i2c_beginTransmission` entered in `s`. -/
def startEvents (s : I2CSensor) (link : Nat) : List Event :=
  [Event.write Line.sda true link (maskFor s true s._i2c_scl_state),
   Event.write Line.scl true link (maskFor s true true),
   Event.write Line.sda false link (maskFor s false true),
   Event.write Line.scl false link (maskFor s false false)]

/-- The read events of a log, in order. -/
def lineReads (es : List Event) : List Event :=
  es.filter fun e =>
    match e with
    | Event.read _ _ _ _ => true
    | _ => false

/-- The SDA samples recorded in a log, in order (true = line read high). -/
def sdaSamples (es : List Event) : List Bool :=
  es.filterMap fun e =>
    match e with
    | Event.read Line.sda _ _ r => some (r != 0)
    | _ => none

/-- One step of the byte assembly in `i2c_requestFrom`:
`response <<= 1; response |= bit` on a `ubyte`. -/
def shiftIn (response : Nat) (b : Bool) : Nat :=
  ((response <<< 1) % 256) ||| (if b then 1 else 0)

/-- The value of a list of samples read most-significant bit first. -/
def byteOfSamples (bs : List Bool) : Nat :=
  bs.foldl (fun acc b => 2 * acc + (if b then 1 else 0)) 0

/-- The world `w1` is `w` later in time: same link and same oracles. -/
def SameEnv (w w1 : World) : Prop :=
  w1._i2c_HTSPB = w._i2c_HTSPB ∧ w1.portIn = w.portIn ∧ w1.timer = w.timer

/-- The session after one received byte was acknowledged and stored: both
lines commanded low, `response` written at index `_i2c_rxBufferLen`, the
length incremented as a `ubyte`. -/
def rxStored (s : I2CSensor) (response : Nat) : I2CSensor :=
  { s with
    _i2c_sda_state := false,
    _i2c_scl_state := false,
    _i2c_rxBuffer := fun k => if k = s._i2c_rxBufferLen then response else s._i2c_rxBuffer k,
    _i2c_rxBufferLen := (s._i2c_rxBufferLen + 1) % 256 }

/-- The world after one data bit of `i2c_requestFrom` was read without clock
stretching: SCL raised, the timer read, one SCL poll, the settle delay, the
SDA sample, SCL lowered. -/
def afterBit (s : I2CSensor) (w : World) : World :=
  { w with
    reads := w.reads + 2,
    ticks := w.ticks + 1,
    log := w.log ++
      [Event.write Line.scl true w._i2c_HTSPB (lineMask { s with _i2c_scl_state := true }),
       Event.time (w.timer w.ticks),
       Event.read Line.scl w._i2c_HTSPB s._i2c_scl (w.portIn w.reads w._i2c_HTSPB s._i2c_scl),
       Event.wait 2,
       Event.read Line.sda w._i2c_HTSPB s._i2c_sda
         (w.portIn (w.reads + 1) w._i2c_HTSPB s._i2c_sda),
       Event.write Line.scl false w._i2c_HTSPB (lineMask { s with _i2c_scl_state := false })] }

/-- A world whose slave acknowledges and never stretches the clock: the k-th read
gives 1 for mask 2 (the SCL pin of `idleSensor`) and bit 1 of `k` for any
other mask, so that read 0 (the acknowledge bit) is low. -/
def ackWorld : World :=
  { _i2c_HTSPB := 0, portIn := fun k _ mask => if mask = 2 then 1 else (k / 2) % 2,
    timer := fun k => k, reads := 0, ticks := 0, log := [] }

/-- A world whose slave lets 11 bits through and then holds SCL low for ever:
the first 23 reads give 1, all later reads give 0; the timer advances by 1001
between two reads. -/
def stallWorld : World :=
  { _i2c_HTSPB := 0, portIn := fun k _ _ => if k < 23 then 1 else 0,
    timer := fun k => 1001 * k, reads := 0, ticks := 0, log := [] }

/-- The buffered bytes, oldest first: slots `0 .. _i2c_rxBufferLen - 1`. -/
def contents (s : I2CSensor) : List Nat :=
  (List.range s._i2c_rxBufferLen).map s._i2c_rxBuffer

/-- A caller that calls `i2c_read` `k` times in a row and records, for each
call, the byte returned and `i2c_available()` right after it. -/
def i2c_read_times : Nat → I2CSensor → World → Option (List (Nat × Int))
  | 0, _, _ => some []
  | k + 1, s, w =>
    match i2c_read s w with
    | Run.ret v s1 w1 =>
      match i2c_read_times k s1 w1 with
      | some l => some ((v, i2c_available s1) :: l)
      | none => none
    | _ => none

/-- What draining a buffer holding `xs` must give: each byte in order, paired
with the number of bytes left after it. -/
def expectedReads : List Nat → List (Nat × Int)
  | [] => []
  | x :: xs => (x, (xs.length : Int)) :: expectedReads xs

/-- A session whose buffer holds the three bytes 7, 8, 9. -/
def threeBytes : I2CSensor :=
  { idleSensor with
    _i2c_rxBuffer := fun k => if k = 0 then 7 else if k = 1 then 8 else if k = 2 then 9 else 0,
    _i2c_rxBufferLen := 3 }

/-- The session and world in which the array form of `i2c_write` makes its
call number `i` (0-based) of the single-byte write: the state after `i`
iterations of its loop. -/
def stateBefore (s : I2CSensor) (w : World) (values : Nat → Nat) (i : Nat) :
    I2CSensor × World :=
  (i2c_write_array_loop i 0 0 values s w).2

/-- Whether call number `i` of the single-byte write made by the array form
returned true (observed an ACK). -/
def ackAt (s : I2CSensor) (w : World) (values : Nat → Nat) (i : Nat) : Bool :=
  (i2c_write (stateBefore s w values i).1 (stateBefore s w values i).2 (values i % 256)).1

/-- Events of `n` consecutive single-byte writes of `values i`, `values (i+1)`,
... whose SDA reads are reads number `k`, `k + 1`, ... of the port. -/
def arrayEvents (link : Nat) (input : Nat → Nat) (values : Nat → Nat) :
    I2CSensor → Nat → Nat → Nat → List Event
  | _, 0, _, _ => []
  | s, n + 1, i, k =>
    writeEvents s link (values i % 256) (input k) ++
      arrayEvents link input values (bothLow s) n (i + 1) (k + 1)

/-- Concatenation of `f i`, `f (i + 1)`, ..., `n` lists in all. -/
def concatFrom (f : Nat → List Event) : Nat → Nat → List Event
  | 0, _ => []
  | n + 1, i => f i ++ concatFrom f n (i + 1)

/-- A world whose slave acknowledges every byte but the second: read 1 gives
1, every other read gives 0. -/
def nackSecondWorld : World :=
  { _i2c_HTSPB := 0, portIn := fun k _ _ => if k = 1 then 1 else 0,
    timer := fun k => k, reads := 0, ticks := 0, log := [] }

/-- The C library function `strlen`: the number of characters before the first
NUL.  A string is given as the list of `char` cells starting at the pointer;
the list of a NUL-terminated string contains a 0. -/
def strlen (str : List Int) : Nat :=
  (str.takeWhile fun c => c != 0).length

/-- The conversion of a `char` argument to the `ubyte` parameter of the
single-byte write: its 8-bit value. -/
def charToUbyte (c : Int) : Nat :=
  (c % 256).toNat

/-- The loop of the string form of `i2c_write`; the first argument is the
number of iterations left (`length - i`). -/
def i2c_write_string_loop : Nat → Nat → Int → List Int → I2CSensor → World →
    Int × I2CSensor × World
  | 0, _, ack, _, s, w => (ack, s, w)
  | n + 1, i, ack, str, s, w =>
    let r := i2c_write s w (charToUbyte (str.getD i 0))
    i2c_write_string_loop n (i + 1) (if r.1 then ack + 1 else ack) str r.2.1 r.2.2

/-- String form `i2c_write(this, str)`. -/
def i2c_write_string (s : I2CSensor) (w : World) (str : List Int) :
    Int × I2CSensor × World :=
  i2c_write_string_loop (strlen str) 0 0 str s w

/-- The bus-level view of a log: the line writes and the SDA samples, in
order, without the SCL polls of the clock-stretch wait. -/
def busOps (es : List Event) : List LineOp :=
  (ops es).filter fun o => o != LineOp.sample Line.scl

/-- `n` copies of a list of line operations, one after the other. -/
def repeatOps : Nat → List LineOp → List LineOp
  | 0, _ => []
  | n + 1, l => l ++ repeatOps n l

/-- One data bit of a read: SCL high, sample SDA, SCL low. -/
def readBitOps : List LineOp :=
  [LineOp.set Line.scl true, LineOp.sample Line.sda, LineOp.set Line.scl false]

/-- One received byte: SDA released, eight sampled pulses, then the master
ACK: SDA low, SCL high, SCL low. -/
def readByteOps : List LineOp :=
  [LineOp.set Line.sda true] ++ repeatOps 8 readBitOps ++
    [LineOp.set Line.sda false, LineOp.set Line.scl true, LineOp.set Line.scl false]

/-- The commanded states `(SDA, SCL)` after a list of line operations, starting
from the commanded states `sda`, `scl`. -/
def linesAfter : Bool → Bool → List LineOp → Bool × Bool
  | sda, scl, [] => (sda, scl)
  | _, scl, LineOp.set Line.sda v :: os => linesAfter v scl os
  | sda, _, LineOp.set Line.scl v :: os => linesAfter sda v os
  | sda, scl, LineOp.sample _ :: os => linesAfter sda scl os

/-- The changes of the commanded SDA state made while SCL is commanded high,
in order, each given by the new SDA state: `false` is a falling edge (a start
condition), `true` a rising edge (a stop condition). -/
def sdaEdges : Bool → Bool → List LineOp → List Bool
  | _, _, [] => []
  | sda, scl, LineOp.set Line.sda v :: os =>
    (if scl && (v != sda) then [v] else []) ++ sdaEdges v scl os
  | sda, _, LineOp.set Line.scl v :: os => sdaEdges sda v os
  | sda, scl, LineOp.sample _ :: os => sdaEdges sda scl os

/-- The number of SDA writes made while SCL is commanded high, starting with
SCL commanded `scl`. -/
def sdaWritesWhileHigh : Bool → List LineOp → Nat
  | _, [] => 0
  | scl, LineOp.set Line.sda _ :: os => (if scl then 1 else 0) + sdaWritesWhileHigh scl os
  | _, LineOp.set Line.scl v :: os => sdaWritesWhileHigh v os
  | scl, LineOp.sample _ :: os => sdaWritesWhileHigh scl os

/-- How the loop of `i2c_requestFrom(address, quantity)` is left: through
`return quantity` (`complete`) or through `return i` in the clock-stretch wait
(`expired`). -/
def i2c_requestFrom_exit (fuel : Nat) (s : I2CSensor) (w : World) (address : Nat)
    (quantity : Int) : ReadResult :=
  i2c_requestFrom_loop fuel quantity.toNat 0 (i2c_beginTransmission s w address 1).1
    (i2c_beginTransmission s w address 1).2

/-- A caller that makes the single-byte writes of `values` one after the
other. -/
def i2c_write_each : List Nat → I2CSensor → World → I2CSensor × World
  | [], s, w => (s, w)
  | v :: vs, s, w =>
    let r := i2c_write s w v
    i2c_write_each vs r.2.1 r.2.2

/-- A write transaction: `i2c_beginTransmission(address, write)`, the
single-byte writes of `values`, `i2c_endTransmission`. -/
def transaction (s : I2CSensor) (w : World) (address write : Nat) (values : List Nat) :
    I2CSensor × World :=
  let b := i2c_beginTransmission s w address write
  let r := i2c_write_each values b.1 b.2
  i2c_endTransmission r.1 r.2

/-! # Theorems -/

/-! ## Closed form of the single-byte write -/

theorem and_two_pow_ne_zero (v k : Nat) : ((v &&& 2 ^ k) != 0) = v.testBit k := by
  have h : v &&& 2 ^ k = if v.testBit k then 2 ^ k else 0 := by
    apply Nat.eq_of_testBit_eq
    intro j
    by_cases hv : v.testBit k
    · by_cases hj : k = j
      · subst hj; simp [Nat.testBit_and, hv, Nat.testBit_two_pow]
      · simp [Nat.testBit_and, hv, Nat.testBit_two_pow, hj]
    · by_cases hj : k = j
      · subst hj; simp [Nat.testBit_and, hv]
      · simp [Nat.testBit_and, hv, Nat.testBit_two_pow, hj]
  rw [h]
  by_cases hv : v.testBit k
  · simp [hv]
  · simp [hv]

theorem i2c_write_eq (s : I2CSensor) (w : World) (v : Nat) :
    i2c_write s w v =
      (w.portIn w.reads w._i2c_HTSPB s._i2c_sda == 0, bothLow s,
       { w with reads := w.reads + 1,
                log := w.log ++
                  writeEvents s w._i2c_HTSPB v (w.portIn w.reads w._i2c_HTSPB s._i2c_sda) }) := by
  have h7 := and_two_pow_ne_zero v 7
  have h6 := and_two_pow_ne_zero v 6
  have h5 := and_two_pow_ne_zero v 5
  have h4 := and_two_pow_ne_zero v 4
  have h3 := and_two_pow_ne_zero v 3
  have h2 := and_two_pow_ne_zero v 2
  have h1 := and_two_pow_ne_zero v 1
  have h0 := and_two_pow_ne_zero v 0
  norm_num at h7 h6 h5 h4 h3 h2 h1 h0
  simp [i2c_write, i2c_write_bits, _i2c_sda_write, _i2c_scl_write, _i2c_sda_read,
    HTSPBsetupIO, HTSPBreadIO, writeEvents, bitEvents, ackEvents, maskFor, bothLow,
    h7, h6, h5, h4, h3, h2, h1, h0]
  rfl

theorem i2c_write_bits_zero (fuel v : Nat) (s : I2CSensor) (w : World) :
    i2c_write_bits fuel v 0 s w = (s, w) := by
  cases fuel <;> simp [i2c_write_bits]

/-- From mask `1 << 7` the loop of the single-byte write leaves through
`mask != 0` after 8 iterations: a larger iteration bound changes nothing. -/
theorem i2c_write_bits_fuel (k v : Nat) (s : I2CSensor) (w : World) :
    i2c_write_bits (k + 8) v 128 s w = i2c_write_bits 8 v 128 s w := by
  simp [i2c_write_bits, i2c_write_bits_zero]

theorem emitted_append (w w1 : World) (es : List Event) (h : w1.log = w.log ++ es) :
    emitted w w1 = es := by
  simp [emitted, h]

theorem i2c_write_emitted (s : I2CSensor) (w : World) (v : Nat) :
    emitted w (i2c_write s w v).2.2 =
      writeEvents s w._i2c_HTSPB v (w.portIn w.reads w._i2c_HTSPB s._i2c_sda) := by
  apply emitted_append
  rw [i2c_write_eq]

/-! ## C1: line order of the single-byte write -/

/-- C1 (as stated) fails: for the byte 0 written from the idle session the
line operations are not exactly the claimed list, because the code commands
SDA low once more after the ninth pulse. -/
theorem i2c_write_order_as_claimed_fails :
    ops (emitted lowWorld (i2c_write idleSensor lowWorld 0).2.2) ≠ claimedWriteOps 0 := by
  decide

/-- C1 (amended): for every value `v` and every session and world, the single-byte
write commands the lines in exactly the claimed order followed by one final
SDA := low; it raises SCL exactly 9 times, the first eight pulses carrying the
bits of `v` from bit 7 down to bit 0, the ninth taken with SDA released and
holding the only sample. -/
theorem i2c_write_line_order (s : I2CSensor) (w : World) (v : Nat) :
    ops (emitted w (i2c_write s w v).2.2) =
        claimedWriteOps v ++ [LineOp.set Line.sda false] ∧
      sclPulses (emitted w (i2c_write s w v).2.2) = 9 := by
  rw [i2c_write_emitted]
  constructor
  · simp [writeEvents, bitEvents, ackEvents, ops, Event.op, claimedWriteOps, bitOps]
  · simp [writeEvents, bitEvents, ackEvents, sclPulses, ops, Event.op]

/-! ## C2: the acknowledge bit -/

/-- C2: the single-byte write returns true exactly when its SDA read returns
0 (line low).  That read is the only hardware read of the call, it is taken
after SDA was released and SCL raised and before SCL is lowered, and any other
call (other session, other world, other value) whose read returns the same
gives the same result. -/
theorem i2c_write_ack_iff (s : I2CSensor) (w : World) (v : Nat) :
    ((i2c_write s w v).1 = true ↔ w.portIn w.reads w._i2c_HTSPB s._i2c_sda = 0) ∧
      lineReads (emitted w (i2c_write s w v).2.2) =
        [Event.read Line.sda w._i2c_HTSPB s._i2c_sda
          (w.portIn w.reads w._i2c_HTSPB s._i2c_sda)] ∧
      (i2c_write s w v).2.2.reads = w.reads + 1 ∧
      (ops (emitted w (i2c_write s w v).2.2)).drop 24 =
        [LineOp.set Line.sda true, LineOp.set Line.scl true, LineOp.sample Line.sda,
         LineOp.set Line.scl false, LineOp.set Line.sda false] ∧
      ∀ (s2 : I2CSensor) (w2 : World) (v2 : Nat),
        w2.portIn w2.reads w2._i2c_HTSPB s2._i2c_sda =
            w.portIn w.reads w._i2c_HTSPB s._i2c_sda →
          (i2c_write s2 w2 v2).1 = (i2c_write s w v).1 := by
  refine ⟨?_, ?_, ?_, ?_, ?_⟩
  · rw [i2c_write_eq]; simp
  · rw [i2c_write_emitted]; simp [writeEvents, bitEvents, ackEvents, lineReads]
  · rw [i2c_write_eq]
  · rw [i2c_write_emitted]; simp [writeEvents, bitEvents, ackEvents, ops, Event.op]
  · intro s2 w2 v2 h
    rw [i2c_write_eq, i2c_write_eq]; simp [h]

/-! ## C3: start condition and address byte -/

theorem address_byte (a r : Nat) (ha : a ≤ 127) (hr : r ≤ 1) :
    ((a <<< 1) ||| r) % 256 = 2 * a + r := by
  have h := Nat.mul_add_lt_is_or (show r < 2 ^ 1 by omega) a
  rw [Nat.shiftLeft_eq, Nat.mul_comm a (2 ^ 1), ← h]
  norm_num
  omega

theorem i2c_beginTransmission_eq (s : I2CSensor) (w : World) (a r : Nat) :
    i2c_beginTransmission s w a r =
      (i2c_write (bothLow s)
        { w with log := w.log ++ startEvents s w._i2c_HTSPB } (((a <<< 1) ||| r) % 256)).2 := by
  simp [i2c_beginTransmission, _i2c_sda_write, _i2c_scl_write, HTSPBsetupIO, startEvents,
    maskFor, bothLow]

/-- C3: for a 7-bit address `a` and read flag `r` in {0,1},
`i2c_beginTransmission(a, r)` first commands SDA released, SCL high, SDA low,
SCL low, and then is exactly the single-byte write of `2*a + r` from the
resulting session; the overload without the flag is the call with flag 0. -/
theorem i2c_beginTransmission_start_then_address (s : I2CSensor) (w : World) (a r : Nat)
    (ha : a ≤ 127) (hr : r ≤ 1) :
    ops (startEvents s w._i2c_HTSPB) =
        [LineOp.set Line.sda true, LineOp.set Line.scl true,
         LineOp.set Line.sda false, LineOp.set Line.scl false] ∧
      i2c_beginTransmission s w a r =
        (i2c_write (bothLow s)
          { w with log := w.log ++ startEvents s w._i2c_HTSPB } (2 * a + r)).2 ∧
      i2c_beginTransmission_default s w a = i2c_beginTransmission s w a 0 := by
  refine ⟨?_, ?_, rfl⟩
  · simp [startEvents, ops, Event.op]
  · rw [i2c_beginTransmission_eq, address_byte a r ha hr]

/-- The start of a read transaction to address 0x1E from the idle session. -/
theorem i2c_beginTransmission_start_then_address_witness :
    ops (startEvents idleSensor lowWorld._i2c_HTSPB) =
        [LineOp.set Line.sda true, LineOp.set Line.scl true,
         LineOp.set Line.sda false, LineOp.set Line.scl false] ∧
      i2c_beginTransmission idleSensor lowWorld 0x1E 1 =
        (i2c_write (bothLow idleSensor)
          { lowWorld with log := lowWorld.log ++ startEvents idleSensor lowWorld._i2c_HTSPB }
          (2 * 0x1E + 1)).2 ∧
      i2c_beginTransmission_default idleSensor lowWorld 0x1E =
        i2c_beginTransmission idleSensor lowWorld 0x1E 0 :=
  i2c_beginTransmission_start_then_address idleSensor lowWorld 0x1E 1 (by decide) (by decide)

/-! ## C4: the stop sequence leaves the bus idle -/

/-- C4: from every session state, after `i2c_endTransmission` both recorded
line states are released, the last mask handed to the hardware is 0 (no line
pulled low), the receive buffer and its length are unchanged, and a second
`i2c_endTransmission` leaves the same session state. -/
theorem i2c_endTransmission_idle (s : I2CSensor) (w : World) :
    (i2c_endTransmission s w).1._i2c_sda_state = true ∧
      (i2c_endTransmission s w).1._i2c_scl_state = true ∧
      (masks (emitted w (i2c_endTransmission s w).2)).getLast? = some 0 ∧
      (i2c_endTransmission s w).1._i2c_rxBuffer = s._i2c_rxBuffer ∧
      (i2c_endTransmission s w).1._i2c_rxBufferLen = s._i2c_rxBufferLen ∧
      (i2c_endTransmission (i2c_endTransmission s w).1 (i2c_endTransmission s w).2).1 =
        (i2c_endTransmission s w).1 := by
  refine ⟨rfl, rfl, ?_, rfl, rfl, rfl⟩
  rw [emitted_append w _
    [Event.write Line.sda false w._i2c_HTSPB (maskFor s false s._i2c_scl_state),
     Event.write Line.scl true w._i2c_HTSPB (maskFor s false true),
     Event.write Line.sda true w._i2c_HTSPB (maskFor s true true)]]
  · simp [masks, maskFor, lineMask]
  · simp [i2c_endTransmission, _i2c_sda_write, _i2c_scl_write, HTSPBsetupIO, maskFor]

/-! ## General facts on `i2c_requestFrom` (every slave, every timer) -/

theorem SameEnv.refl (w : World) : SameEnv w w := ⟨rfl, rfl, rfl⟩

theorem SameEnv.trans {w w1 w2 : World} (h1 : SameEnv w w1) (h2 : SameEnv w1 w2) :
    SameEnv w w2 :=
  ⟨h2.1.trans h1.1, h2.2.1.trans h1.2.1, h2.2.2.trans h1.2.2⟩

theorem sdaSamples_append (a b : List Event) :
    sdaSamples (a ++ b) = sdaSamples a ++ sdaSamples b := by
  simp [sdaSamples, List.filterMap_append]

theorem sdaSamples_nil : sdaSamples [] = [] := rfl

theorem sdaSamples_cons_write (l : Line) (v : Bool) (link mask : Nat) (es : List Event) :
    sdaSamples (Event.write l v link mask :: es) = sdaSamples es := rfl

theorem wait_high_gen (fuel : Nat) (began : Int) (s : I2CSensor) (w w1 : World)
    (h : i2c_requestFrom_wait fuel began s w = WaitResult.high w1) :
    SameEnv w w1 ∧ ∃ es, w1.log = w.log ++ es ∧ sdaSamples es = [] := by
  induction fuel generalizing w with
  | zero => simp [i2c_requestFrom_wait] at h
  | succ k ih =>
    simp only [i2c_requestFrom_wait] at h
    split_ifs at h with h1 h2
    · injection h with h
      subst h
      exact ⟨⟨rfl, rfl, rfl⟩, _, rfl, rfl⟩
    · obtain ⟨he, es, hes, hs⟩ := ih _ h
      refine ⟨⟨he.1, he.2.1, he.2.2⟩,
        [Event.read Line.scl w._i2c_HTSPB s._i2c_scl
            (w.portIn w.reads w._i2c_HTSPB s._i2c_scl),
          Event.time (w.timer w.ticks)] ++ es, ?_, ?_⟩
      · rw [hes]
        simp [time1, _i2c_scl_read, HTSPBreadIO, List.append_assoc]
      · rw [sdaSamples_append, hs]
        rfl

theorem wait_expired_gen (fuel : Nat) (began : Int) (s : I2CSensor) (w w1 : World)
    (h : i2c_requestFrom_wait fuel began s w = WaitResult.expired w1) :
    SameEnv w w1 ∧ ∃ es, w1.log = w.log ++ es := by
  induction fuel generalizing w with
  | zero => simp [i2c_requestFrom_wait] at h
  | succ k ih =>
    simp only [i2c_requestFrom_wait] at h
    split_ifs at h with h1 h2
    · injection h with h
      subst h
      exact ⟨⟨rfl, rfl, rfl⟩,
        [Event.read Line.scl w._i2c_HTSPB s._i2c_scl
            (w.portIn w.reads w._i2c_HTSPB s._i2c_scl),
          Event.time (w.timer w.ticks)],
        by simp [time1, _i2c_scl_read, HTSPBreadIO]⟩
    · obtain ⟨he, es, hes⟩ := ih _ h
      refine ⟨⟨he.1, he.2.1, he.2.2⟩,
        [Event.read Line.scl w._i2c_HTSPB s._i2c_scl
            (w.portIn w.reads w._i2c_HTSPB s._i2c_scl),
          Event.time (w.timer w.ticks)] ++ es, ?_⟩
      rw [hes]
      simp [time1, _i2c_scl_read, HTSPBreadIO, List.append_assoc]

theorem bits_byte_gen (fuel n : Nat) (resp : Nat) (s : I2CSensor) (w : World)
    (r1 : Nat) (s1 : I2CSensor) (w1 : World)
    (h : i2c_requestFrom_bits fuel n resp s w = BitsResult.byte r1 s1 w1) :
    s1 = (if n = 0 then s else { s with _i2c_scl_state := false }) ∧ SameEnv w w1 ∧
      ∃ es, w1.log = w.log ++ es ∧ (sdaSamples es).length = n ∧
        r1 = (sdaSamples es).foldl shiftIn resp := by
  induction n generalizing resp s w with
  | zero =>
    simp only [i2c_requestFrom_bits] at h
    injection h with h1 h2 h3
    subst h1 h2 h3
    exact ⟨rfl, SameEnv.refl _, [], by simp, rfl, rfl⟩
  | succ n ih =>
    simp only [i2c_requestFrom_bits] at h
    split at h
    · exact absurd h (by simp)
    · exact absurd h (by simp)
    · rename_i w2 hw
      obtain ⟨he2, es2, hes2, hs2⟩ := wait_high_gen _ _ _ _ _ hw
      obtain ⟨hs1, he1, es1, hes1, hlen, hr⟩ := ih _ _ _ h
      refine ⟨?_, ?_, ?_⟩
      · rw [hs1]
        simp [_i2c_scl_write]
      · have h3 : SameEnv w w2 := ⟨he2.1, he2.2.1, he2.2.2⟩
        exact SameEnv.trans h3 ⟨he1.1, he1.2.1, he1.2.2⟩
      · refine ⟨[Event.write Line.scl true w._i2c_HTSPB
              (lineMask { s with _i2c_scl_state := true }),
            Event.time (w.timer w.ticks)] ++ es2 ++
          [Event.wait 2,
            Event.read Line.sda w2._i2c_HTSPB s._i2c_sda
              (w2.portIn w2.reads w2._i2c_HTSPB s._i2c_sda),
            Event.write Line.scl false w2._i2c_HTSPB
              (lineMask { s with _i2c_scl_state := false })] ++ es1, ?_, ?_, ?_⟩
        · rw [hes1]
          simp [_i2c_scl_write, _i2c_sda_read, HTSPBsetupIO, HTSPBreadIO, wait1Msec,
            List.append_assoc]
          rw [hes2]
          simp [_i2c_scl_write, time1, HTSPBsetupIO, List.append_assoc]
        · simp only [sdaSamples_append, hs2, List.length_append, hlen]
          simp [sdaSamples]
          omega
        · rw [hr]
          simp only [sdaSamples_append, hs2]
          simp [sdaSamples, shiftIn, _i2c_sda_read, HTSPBreadIO, wait1Msec, _i2c_scl_write]

theorem bits_expired_gen (fuel n : Nat) (resp : Nat) (s : I2CSensor) (w : World)
    (s1 : I2CSensor) (w1 : World)
    (h : i2c_requestFrom_bits fuel n resp s w = BitsResult.expired s1 w1) :
    s1 = { s with _i2c_scl_state := true } ∧ SameEnv w w1 ∧
      ∃ es, w1.log = w.log ++ es := by
  induction n generalizing resp s w with
  | zero => simp [i2c_requestFrom_bits] at h
  | succ n ih =>
    simp only [i2c_requestFrom_bits] at h
    split at h
    · exact absurd h (by simp)
    · rename_i w2 hw
      obtain ⟨he2, es2, hes2⟩ := wait_expired_gen _ _ _ _ _ hw
      injection h with h1 h2
      subst h1 h2
      refine ⟨rfl, ⟨he2.1, he2.2.1, he2.2.2⟩,
        [Event.write Line.scl true w._i2c_HTSPB
              (lineMask { s with _i2c_scl_state := true }),
            Event.time (w.timer w.ticks)] ++ es2, ?_⟩
      rw [hes2]
      simp [_i2c_scl_write, time1, HTSPBsetupIO, List.append_assoc]
    · rename_i w2 hw
      obtain ⟨he2, es2, hes2, -⟩ := wait_high_gen _ _ _ _ _ hw
      obtain ⟨hs1, he1, es1, hes1⟩ := ih _ _ _ h
      refine ⟨?_, ?_, ?_⟩
      · rw [hs1]
        simp [_i2c_scl_write]
      · have h3 : SameEnv w w2 := ⟨he2.1, he2.2.1, he2.2.2⟩
        exact SameEnv.trans h3 ⟨he1.1, he1.2.1, he1.2.2⟩
      · refine ⟨[Event.write Line.scl true w._i2c_HTSPB
              (lineMask { s with _i2c_scl_state := true }),
            Event.time (w.timer w.ticks)] ++ es2 ++
          [Event.wait 2,
            Event.read Line.sda w2._i2c_HTSPB s._i2c_sda
              (w2.portIn w2.reads w2._i2c_HTSPB s._i2c_sda),
            Event.write Line.scl false w2._i2c_HTSPB
              (lineMask { s with _i2c_scl_state := false })] ++ es1, ?_⟩
        rw [hes1]
        simp [_i2c_scl_write, _i2c_sda_read, HTSPBsetupIO, HTSPBreadIO, wait1Msec,
          List.append_assoc]
        rw [hes2]
        simp [_i2c_scl_write, time1, HTSPBsetupIO, List.append_assoc]

theorem shiftIn_eq (acc : Nat) (b : Bool) (h : acc < 128) :
    shiftIn acc b = 2 * acc + (if b then 1 else 0) := by
  have hb : (if b then 1 else 0) < 2 ^ 1 := by cases b <;> simp
  have h2 := Nat.mul_add_lt_is_or hb acc
  unfold shiftIn
  rw [Nat.shiftLeft_eq, Nat.mul_comm acc (2 ^ 1), Nat.mod_eq_of_lt (by omega), ← h2]

theorem foldl_shiftIn (bs : List Bool) (acc : Nat) (h : (acc + 1) * 2 ^ bs.length ≤ 256) :
    bs.foldl shiftIn acc = bs.foldl (fun a b => 2 * a + (if b then 1 else 0)) acc := by
  induction bs generalizing acc with
  | nil => rfl
  | cons b bs ih =>
    simp only [List.length_cons, pow_succ] at h
    have hpos : 0 < 2 ^ bs.length := Nat.pow_pos (by norm_num)
    have hacc : acc < 128 := by nlinarith
    simp only [List.foldl_cons]
    rw [shiftIn_eq acc b hacc]
    apply ih
    have : (if b then 1 else 0) ≤ 1 := by cases b <;> simp
    nlinarith

theorem foldl_shiftIn_byte (bs : List Bool) (h : bs.length = 8) :
    bs.foldl shiftIn 0 = byteOfSamples bs := by
  unfold byteOfSamples
  apply foldl_shiftIn
  rw [h]
  norm_num

/-- One iteration of the outer loop of `i2c_requestFrom`, summarised. -/
theorem loop_succ_cases (fuel n i : Nat) (s : I2CSensor) (w : World) :
    i2c_requestFrom_loop fuel (n + 1) i s w = ReadResult.outOfFuel ∨
      (∃ w2, i2c_requestFrom_loop fuel (n + 1) i s w =
          ReadResult.expired i { s with _i2c_sda_state := true, _i2c_scl_state := true } w2 ∧
        SameEnv w w2 ∧ ∃ es, w2.log = w.log ++ es) ∨
      (∃ resp w2, i2c_requestFrom_loop fuel (n + 1) i s w =
          (if s._i2c_rxBufferLen < 32 then
            i2c_requestFrom_loop fuel n (i + 1) (rxStored s resp) w2
          else ReadResult.outOfBounds) ∧
        SameEnv w w2 ∧ ∃ es, w2.log = w.log ++ es ∧ (sdaSamples es).length = 8 ∧
          resp = byteOfSamples (sdaSamples es)) := by
  simp only [i2c_requestFrom_loop]
  cases hb : i2c_requestFrom_bits fuel 8 0 (_i2c_sda_write s w true).1
      (_i2c_sda_write s w true).2 with
  | outOfFuel => exact Or.inl rfl
  | expired s2 w2 =>
    obtain ⟨hs2, he2, es2, hes2⟩ := bits_expired_gen _ _ _ _ _ _ _ hb
    subst hs2
    refine Or.inr (Or.inl ⟨w2, rfl, ⟨he2.1, he2.2.1, he2.2.2⟩,
      [Event.write Line.sda true w._i2c_HTSPB (maskFor s true s._i2c_scl_state)] ++ es2, ?_⟩)
    rw [hes2]
    simp [_i2c_sda_write, HTSPBsetupIO, maskFor, List.append_assoc]
  | byte resp s2 w2 =>
    obtain ⟨hs2, he2, es2, hes2, hlen2, hr2⟩ := bits_byte_gen _ _ _ _ _ _ _ _ hb
    rw [if_neg (by decide)] at hs2
    subst hs2
    refine Or.inr (Or.inr ⟨resp, _, rfl, ⟨he2.1, he2.2.1, he2.2.2⟩,
      [Event.write Line.sda true w._i2c_HTSPB (maskFor s true s._i2c_scl_state)] ++ es2 ++
        [Event.write Line.sda false w2._i2c_HTSPB (maskFor s false false),
         Event.write Line.scl true w2._i2c_HTSPB (maskFor s false true),
         Event.write Line.scl false w2._i2c_HTSPB (maskFor s false false)], ?_, ?_, ?_⟩)
    · simp [_i2c_sda_write, _i2c_scl_write, HTSPBsetupIO, maskFor, List.append_assoc, hes2]
    · rw [sdaSamples_append, sdaSamples_append]
      simpa [sdaSamples_cons_write, sdaSamples_nil] using hlen2
    · rw [hr2, foldl_shiftIn_byte _ hlen2, sdaSamples_append, sdaSamples_append]
      simp [sdaSamples_cons_write, sdaSamples_nil]

theorem loop_complete_gen (fuel n i : Nat) (s : I2CSensor) (w : World)
    (s1 : I2CSensor) (w1 : World)
    (h : i2c_requestFrom_loop fuel n i s w = ReadResult.complete s1 w1) :
    s1._i2c_sda = s._i2c_sda ∧ s1._i2c_scl = s._i2c_scl ∧
      s1._i2c_rxBufferLen = s._i2c_rxBufferLen + n ∧
      (0 < n → s._i2c_rxBufferLen + n ≤ 32) ∧
      (∀ k, k < s._i2c_rxBufferLen ∨ s._i2c_rxBufferLen + n ≤ k →
        s1._i2c_rxBuffer k = s._i2c_rxBuffer k) ∧
      SameEnv w w1 ∧
      ∃ es, w1.log = w.log ++ es ∧ (sdaSamples es).length = 8 * n ∧
        ∀ b, b < n → s1._i2c_rxBuffer (s._i2c_rxBufferLen + b) =
          byteOfSamples (((sdaSamples es).drop (8 * b)).take 8) := by
  induction n generalizing i s w with
  | zero =>
    simp only [i2c_requestFrom_loop] at h
    injection h with h1 h2
    subst h1 h2
    exact ⟨rfl, rfl, rfl, by simp, fun _ _ => rfl, SameEnv.refl _, [], by simp, rfl,
      fun b hb => absurd hb (by simp)⟩
  | succ n ih =>
    rcases loop_succ_cases fuel n i s w with h1 | ⟨w2, h1, -⟩ |
      ⟨resp, w2, h1, he, es, hes, hlen, hr⟩
    · rw [h1] at h; exact absurd h (by simp)
    · rw [h1] at h; exact absurd h (by simp)
    · rw [h1] at h
      split_ifs at h with hcap
      obtain ⟨g1, g2, g3, g4, g5, g6, es3, hes3, hlen3, hb3⟩ := ih _ _ _ h
      have hl : (rxStored s resp)._i2c_rxBufferLen = s._i2c_rxBufferLen + 1 := by
        simp only [rxStored]; omega
      rw [hl] at g3 g4 g5 hb3
      refine ⟨g1, g2, by omega, fun _ => ?_, ?_, SameEnv.trans he g6, es ++ es3, ?_, ?_, ?_⟩
      · rcases Nat.eq_zero_or_pos n with h0 | h0
        · omega
        · have := g4 h0; omega
      · intro k hk
        rw [g5 k (by omega)]
        simp only [rxStored]
        rw [if_neg (by omega)]
      · rw [hes3, hes, List.append_assoc]
      · rw [sdaSamples_append, List.length_append, hlen, hlen3]; ring
      · intro b hb
        rw [sdaSamples_append]
        cases b with
        | zero =>
          rw [g5 _ (by omega)]
          simp only [rxStored, Nat.add_zero, if_true, Nat.mul_zero, List.drop_zero]
          rw [List.take_left' hlen, hr]
        | succ b =>
          have e := hb3 b (by omega)
          rw [show s._i2c_rxBufferLen + (b + 1) = s._i2c_rxBufferLen + 1 + b by omega, e,
            show 8 * (b + 1) = (sdaSamples es).length + 8 * b by omega, List.drop_append]

theorem loop_expired_gen (fuel n i : Nat) (s : I2CSensor) (w : World)
    (i1 : Nat) (s1 : I2CSensor) (w1 : World)
    (h : i2c_requestFrom_loop fuel n i s w = ReadResult.expired i1 s1 w1) :
    ∃ c, i1 = i + c ∧ c < n ∧
      s1._i2c_sda = s._i2c_sda ∧ s1._i2c_scl = s._i2c_scl ∧
      s1._i2c_sda_state = true ∧ s1._i2c_scl_state = true ∧
      s1._i2c_rxBufferLen = s._i2c_rxBufferLen + c ∧
      (0 < c → s._i2c_rxBufferLen + c ≤ 32) ∧
      (∀ k, k < s._i2c_rxBufferLen ∨ s._i2c_rxBufferLen + c ≤ k →
        s1._i2c_rxBuffer k = s._i2c_rxBuffer k) ∧
      SameEnv w w1 ∧
      ∃ es, w1.log = w.log ++ es ∧ 8 * c ≤ (sdaSamples es).length ∧
        ∀ b, b < c → s1._i2c_rxBuffer (s._i2c_rxBufferLen + b) =
          byteOfSamples (((sdaSamples es).drop (8 * b)).take 8) := by
  induction n generalizing i s w with
  | zero => simp [i2c_requestFrom_loop] at h
  | succ n ih =>
    rcases loop_succ_cases fuel n i s w with h1 | ⟨w2, h1, he, es, hes⟩ |
      ⟨resp, w2, h1, he, es, hes, hlen, hr⟩
    · rw [h1] at h; exact absurd h (by simp)
    · rw [h1] at h
      injection h with e1 e2 e3
      subst e1 e2 e3
      exact ⟨0, rfl, by omega, rfl, rfl, rfl, rfl, rfl, by simp, fun _ _ => rfl, he, es, hes,
        by simp, fun b hb => absurd hb (by simp)⟩
    · rw [h1] at h
      split_ifs at h with hcap
      obtain ⟨c, g0, gc, g1, g2, g3, g3b, g4, g4b, g5, g6, es3, hes3, hlen3, hb3⟩ := ih _ _ _ h
      have hl : (rxStored s resp)._i2c_rxBufferLen = s._i2c_rxBufferLen + 1 := by
        simp only [rxStored]; omega
      rw [hl] at g4 g4b g5 hb3
      refine ⟨c + 1, by omega, by omega, g1, g2, g3, g3b, by omega, fun _ => ?_, ?_,
        SameEnv.trans he g6, es ++ es3, ?_, ?_, ?_⟩
      · rcases Nat.eq_zero_or_pos c with h0 | h0
        · omega
        · have := g4b h0; omega
      · intro k hk
        rw [g5 k (by omega)]
        simp only [rxStored]
        rw [if_neg (by omega)]
      · rw [hes3, hes, List.append_assoc]
      · rw [sdaSamples_append, List.length_append, hlen]; omega
      · intro b hb
        rw [sdaSamples_append]
        cases b with
        | zero =>
          rw [g5 _ (by omega)]
          simp only [rxStored, Nat.add_zero, if_true, Nat.mul_zero, List.drop_zero]
          rw [List.take_left' hlen, hr]
        | succ b =>
          have e := hb3 b (by omega)
          rw [show s._i2c_rxBufferLen + (b + 1) = s._i2c_rxBufferLen + 1 + b by omega, e,
            show 8 * (b + 1) = (sdaSamples es).length + 8 * b by omega, List.drop_append]

theorem loop_in_bounds (fuel n i : Nat) (s : I2CSensor) (w : World)
    (hcap : s._i2c_rxBufferLen + n ≤ 32) :
    i2c_requestFrom_loop fuel n i s w ≠ ReadResult.outOfBounds := by
  induction n generalizing i s w with
  | zero => simp [i2c_requestFrom_loop]
  | succ n ih =>
    rcases loop_succ_cases fuel n i s w with h1 | ⟨w2, h1, -⟩ | ⟨resp, w2, h1, -⟩
    · rw [h1]; simp
    · rw [h1]; simp
    · rw [h1, if_pos (by omega)]
      apply ih
      simp only [rxStored]
      omega

/-! ## Progress of `i2c_requestFrom` when SCL reads are known -/

theorem wait_high_now (fuel : Nat) (began : Int) (s : I2CSensor) (w : World)
    (h : w.portIn w.reads w._i2c_HTSPB s._i2c_scl ≠ 0) :
    i2c_requestFrom_wait (fuel + 1) began s w =
      WaitResult.high
        { w with reads := w.reads + 1,
                 log := w.log ++ [Event.read Line.scl w._i2c_HTSPB s._i2c_scl
                   (w.portIn w.reads w._i2c_HTSPB s._i2c_scl)] } := by
  simp [i2c_requestFrom_wait, _i2c_scl_read, HTSPBreadIO, h]

theorem wait_stall (m fuel : Nat) (began : Int) (s : I2CSensor) (w : World)
    (hfuel : m < fuel)
    (hlow : ∀ k, w.portIn (w.reads + k) w._i2c_HTSPB s._i2c_scl = 0)
    (hpass : w.timer (w.ticks + m) > began + 1000)
    (hnot : ∀ k, k < m → w.timer (w.ticks + k) ≤ began + 1000) :
    ∃ w1, i2c_requestFrom_wait fuel began s w = WaitResult.expired w1 ∧
      w1.reads = w.reads + m + 1 ∧ w1.ticks = w.ticks + m + 1 ∧
      w1.log.getLast? = some (Event.time (w.timer (w.ticks + m))) := by
  induction m generalizing fuel w with
  | zero =>
    obtain ⟨f, rfl⟩ : ∃ f, fuel = f + 1 := ⟨fuel - 1, by omega⟩
    have h0 := hlow 0
    simp only [Nat.add_zero] at h0 hpass
    refine ⟨{ w with reads := w.reads + 1, ticks := w.ticks + 1,
                     log := w.log ++ [Event.read Line.scl w._i2c_HTSPB s._i2c_scl 0] ++
                       [Event.time (w.timer w.ticks)] }, ?_, rfl, rfl, ?_⟩
    · simp only [i2c_requestFrom_wait, _i2c_scl_read, HTSPBreadIO, time1, h0]
      simp only [bne_self_eq_false, Bool.false_eq_true, if_false, if_pos hpass]
    · simp
  | succ m ih =>
    obtain ⟨f, rfl⟩ : ∃ f, fuel = f + 1 := ⟨fuel - 1, by omega⟩
    have h0 := hlow 0
    have hn0 := hnot 0 (by omega)
    simp only [Nat.add_zero] at h0 hn0
    have hstep : i2c_requestFrom_wait (f + 1) began s w =
        i2c_requestFrom_wait f began s
          { w with reads := w.reads + 1, ticks := w.ticks + 1,
                   log := w.log ++ [Event.read Line.scl w._i2c_HTSPB s._i2c_scl 0] ++
                     [Event.time (w.timer w.ticks)] } := by
      simp only [i2c_requestFrom_wait, _i2c_scl_read, HTSPBreadIO, time1, h0]
      simp only [bne_self_eq_false, Bool.false_eq_true, if_false, if_neg (not_lt.mpr hn0)]
    obtain ⟨w1, e1, e2, e3, e4⟩ := ih f
      { w with reads := w.reads + 1, ticks := w.ticks + 1,
               log := w.log ++ [Event.read Line.scl w._i2c_HTSPB s._i2c_scl 0] ++
                 [Event.time (w.timer w.ticks)] }
      (by omega)
      (fun k => by have := hlow (1 + k); simpa [Nat.add_assoc] using this)
      (by have := hpass; simpa [Nat.add_assoc, Nat.add_comm 1 m] using this)
      (fun k hk => by
        have := hnot (1 + k) (by omega); simpa [Nat.add_assoc] using this)
    refine ⟨w1, by rw [hstep, e1], ?_, ?_, ?_⟩
    · rw [e2]; simp only []; omega
    · rw [e3]; simp only []; omega
    · rw [e4]; simp only [Nat.add_assoc, Nat.add_comm 1 m]

theorem bits_step_high (f n resp : Nat) (s : I2CSensor) (w : World)
    (h : w.portIn w.reads w._i2c_HTSPB s._i2c_scl ≠ 0) :
    i2c_requestFrom_bits (f + 1) (n + 1) resp s w =
      i2c_requestFrom_bits (f + 1) n
        (shiftIn resp (w.portIn (w.reads + 1) w._i2c_HTSPB s._i2c_sda != 0))
        { s with _i2c_scl_state := false } (afterBit s w) := by
  simp only [i2c_requestFrom_bits]
  rw [wait_high_now f _ _ _ (show (time1 (_i2c_scl_write s w true).2).2.portIn
      (time1 (_i2c_scl_write s w true).2).2.reads
      (time1 (_i2c_scl_write s w true).2).2._i2c_HTSPB
      (_i2c_scl_write s w true).1._i2c_scl ≠ 0 from h)]
  simp [_i2c_scl_write, _i2c_sda_read, HTSPBsetupIO, HTSPBreadIO, time1, wait1Msec, afterBit,
    shiftIn, List.append_assoc]

theorem bits_progress (f n resp : Nat) (s : I2CSensor) (w : World)
    (h : ∀ p, p < n → w.portIn (w.reads + 2 * p) w._i2c_HTSPB s._i2c_scl ≠ 0) :
    ∃ r w1, i2c_requestFrom_bits (f + 1) n resp s w =
        BitsResult.byte r (if n = 0 then s else { s with _i2c_scl_state := false }) w1 ∧
      w1.reads = w.reads + 2 * n ∧ w1.ticks = w.ticks + n := by
  induction n generalizing resp s w with
  | zero => exact ⟨resp, w, rfl, rfl, rfl⟩
  | succ n ih =>
    have h0 := h 0 (by omega)
    simp only [Nat.add_zero] at h0
    rw [bits_step_high f n resp s w h0]
    obtain ⟨r, w1, e1, e2, e3⟩ := ih
      (shiftIn resp (w.portIn (w.reads + 1) w._i2c_HTSPB s._i2c_sda != 0))
      { s with _i2c_scl_state := false } (afterBit s w)
      (fun p hp => by
        have := h (p + 1) (by omega)
        rw [show w.reads + 2 * (p + 1) = w.reads + 2 + 2 * p by omega] at this
        simpa [afterBit] using this)
    refine ⟨r, w1, ?_, ?_, ?_⟩
    · rw [e1, if_neg (Nat.succ_ne_zero n)]
      split_ifs <;> rfl
    · rw [e2]; simp only [afterBit]; omega
    · rw [e3]; simp only [afterBit]; omega

theorem bits_stall (j m fuel n resp : Nat) (s : I2CSensor) (w : World)
    (hj : j < n) (hfuel : m < fuel)
    (hhigh : ∀ p, p < j → w.portIn (w.reads + 2 * p) w._i2c_HTSPB s._i2c_scl ≠ 0)
    (hlow : ∀ k, w.portIn (w.reads + 2 * j + k) w._i2c_HTSPB s._i2c_scl = 0)
    (hpass : w.timer (w.ticks + j + 1 + m) > w.timer (w.ticks + j) + 1000)
    (hnot : ∀ k, k < m → w.timer (w.ticks + j + 1 + k) ≤ w.timer (w.ticks + j) + 1000) :
    ∃ w1, i2c_requestFrom_bits fuel n resp s w =
        BitsResult.expired { s with _i2c_scl_state := true } w1 ∧
      w1.reads = w.reads + 2 * j + m + 1 ∧ w1.ticks = w.ticks + j + 1 + m + 1 ∧
      w1.log.getLast? = some (Event.time (w.timer (w.ticks + j + 1 + m))) := by
  induction j generalizing n resp s w with
  | zero =>
    obtain ⟨n, rfl⟩ : ∃ k, n = k + 1 := ⟨n - 1, by omega⟩
    obtain ⟨w1, e1, e2, e3, e4⟩ := wait_stall m fuel (w.timer w.ticks)
      { s with _i2c_scl_state := true } (time1 (_i2c_scl_write s w true).2).2 hfuel
      (fun k => by have := hlow k; simpa [time1, _i2c_scl_write, HTSPBsetupIO] using this)
      (by have := hpass; simpa [time1, _i2c_scl_write, HTSPBsetupIO] using this)
      (fun k hk => by
        have := hnot k hk; simpa [time1, _i2c_scl_write, HTSPBsetupIO] using this)
    refine ⟨w1, ?_, ?_, ?_, ?_⟩
    · simp only [i2c_requestFrom_bits]
      have e1b : i2c_requestFrom_wait fuel (time1 (_i2c_scl_write s w true).2).1
          (_i2c_scl_write s w true).1 (time1 (_i2c_scl_write s w true).2).2 =
          WaitResult.expired w1 := e1
      rw [e1b]
      rfl
    · rw [e2]; simp [time1, _i2c_scl_write, HTSPBsetupIO]
    · rw [e3]; simp [time1, _i2c_scl_write, HTSPBsetupIO]
    · rw [e4]; simp [time1, _i2c_scl_write, HTSPBsetupIO]
  | succ j ih =>
    obtain ⟨n, rfl⟩ : ∃ k, n = k + 1 := ⟨n - 1, by omega⟩
    obtain ⟨f, rfl⟩ : ∃ k, fuel = k + 1 := ⟨fuel - 1, by omega⟩
    have h0 := hhigh 0 (by omega)
    simp only [Nat.add_zero] at h0
    rw [bits_step_high f n resp s w h0]
    obtain ⟨w1, e1, e2, e3, e4⟩ := ih n
      (shiftIn resp (w.portIn (w.reads + 1) w._i2c_HTSPB s._i2c_sda != 0))
      { s with _i2c_scl_state := false } (afterBit s w) (by omega)
      (fun p hp => by
        have := hhigh (p + 1) (by omega)
        rw [show w.reads + 2 * (p + 1) = w.reads + 2 + 2 * p by omega] at this
        simpa [afterBit] using this)
      (fun k => by
        have := hlow k
        rw [show w.reads + 2 * (j + 1) + k = w.reads + 2 + 2 * j + k by omega] at this
        simpa [afterBit] using this)
      (by
        have := hpass
        rw [show w.ticks + (j + 1) + 1 + m = w.ticks + 1 + j + 1 + m by omega,
          show w.ticks + (j + 1) = w.ticks + 1 + j by omega] at this
        simpa [afterBit] using this)
      (fun k hk => by
        have := hnot k hk
        rw [show w.ticks + (j + 1) + 1 + k = w.ticks + 1 + j + 1 + k by omega,
          show w.ticks + (j + 1) = w.ticks + 1 + j by omega] at this
        simpa [afterBit] using this)
    refine ⟨w1, by rw [e1], ?_, ?_, ?_⟩
    · rw [e2]; simp only [afterBit]; omega
    · rw [e3]; simp only [afterBit]; omega
    · rw [e4]; simp only [afterBit]
      rw [show w.ticks + 1 + j + 1 + m = w.ticks + (j + 1) + 1 + m by omega]

theorem loop_step_progress (f n i : Nat) (s : I2CSensor) (w : World)
    (hhigh : ∀ p, p < 8 → w.portIn (w.reads + 2 * p) w._i2c_HTSPB s._i2c_scl ≠ 0) :
    ∃ resp w2, i2c_requestFrom_loop (f + 1) (n + 1) i s w =
        (if s._i2c_rxBufferLen < 32 then
          i2c_requestFrom_loop (f + 1) n (i + 1) (rxStored s resp) w2
        else ReadResult.outOfBounds) ∧
      SameEnv w w2 ∧ w2.reads = w.reads + 16 ∧ w2.ticks = w.ticks + 8 := by
  obtain ⟨r, w1, e1, e2, e3⟩ := bits_progress f 8 0 (_i2c_sda_write s w true).1
    (_i2c_sda_write s w true).2 (fun p hp => hhigh p hp)
  obtain ⟨-, he, -⟩ := bits_byte_gen _ _ _ _ _ _ _ _ e1
  rw [if_neg (by decide)] at e1
  refine ⟨r, ?_, ?_, ?_, ?_, ?_⟩
  rotate_left
  · simp only [i2c_requestFrom_loop]
    rw [e1]
    exact rfl
  · exact ⟨he.1, he.2.1, he.2.2⟩
  · exact e2
  · exact e3

theorem loop_progress (f n i : Nat) (s : I2CSensor) (w : World)
    (hcap : s._i2c_rxBufferLen + n ≤ 32)
    (hhigh : ∀ p, p < 8 * n → w.portIn (w.reads + 2 * p) w._i2c_HTSPB s._i2c_scl ≠ 0) :
    ∃ s1 w1, i2c_requestFrom_loop (f + 1) n i s w = ReadResult.complete s1 w1 ∧
      w1.reads = w.reads + 16 * n ∧ w1.ticks = w.ticks + 8 * n := by
  induction n generalizing i s w with
  | zero => exact ⟨s, w, rfl, rfl, rfl⟩
  | succ n ih =>
    obtain ⟨resp, w2, e1, he, e2, e3⟩ := loop_step_progress f n i s w
      (fun p hp => hhigh p (by omega))
    obtain ⟨s1, w1, g1, g2, g3⟩ := ih (i + 1) (rxStored s resp) w2
      (by simp only [rxStored]; omega)
      (fun p hp => by
        have := hhigh (8 + p) (by omega)
        rw [he.1, he.2.1, e2,
          show w.reads + 16 + 2 * p = w.reads + 2 * (8 + p) by omega]
        exact this)
    refine ⟨s1, w1, ?_, ?_, ?_⟩
    · rw [e1, if_pos (by omega), g1]
    · rw [g2, e2]; omega
    · rw [g3, e3]; omega

theorem i2c_beginTransmission_closed (s : I2CSensor) (w : World) (a r : Nat) :
    i2c_beginTransmission s w a r =
      (bothLow s,
       { w with reads := w.reads + 1,
                log := w.log ++ startEvents s w._i2c_HTSPB ++
                  writeEvents (bothLow s) w._i2c_HTSPB (((a <<< 1) ||| r) % 256)
                    (w.portIn w.reads w._i2c_HTSPB s._i2c_sda) }) := by
  rw [i2c_beginTransmission_eq, i2c_write_eq]
  rfl

/-! ## C5: a slave that never stretches the clock -/

/-- C5: for every `n` in [1,32] and every address, from a session with an empty
receive buffer and a world in which every SCL read returns high (any fuel of
at least one poll per wait), `i2c_requestFrom(address, n)` returns `n` and
`i2c_available()` is `n` afterwards.  The acknowledge bit of the address byte
is not looked at, so this holds in particular for a slave that always ACKs. -/
theorem i2c_requestFrom_returns_quantity (fuel : Nat) (s : I2CSensor) (w : World)
    (address n : Nat) (hfuel : 0 < fuel) (h1 : 1 ≤ n) (h32 : n ≤ 32)
    (hempty : s._i2c_rxBufferLen = 0)
    (hscl : ∀ k, w.portIn k w._i2c_HTSPB s._i2c_scl ≠ 0) :
    ∃ s1 w1, i2c_requestFrom fuel s w address (n : Int) = Run.ret n s1 w1 ∧
      i2c_available s1 = (n : Int) := by
  obtain ⟨f, rfl⟩ : ∃ k, fuel = k + 1 := ⟨fuel - 1, by omega⟩
  obtain ⟨s1, w1, e1, -, -⟩ := loop_progress f n 0 (i2c_beginTransmission s w address 1).1
    (i2c_beginTransmission s w address 1).2
    (by rw [i2c_beginTransmission_closed]; simp only [bothLow]; omega)
    (fun p _ => by rw [i2c_beginTransmission_closed]; exact hscl _)
  obtain ⟨-, -, g3, -⟩ := loop_complete_gen _ _ _ _ _ _ _ e1
  refine ⟨s1, w1, ?_, ?_⟩
  · simp only [i2c_requestFrom, Int.toNat_ofNat, e1]
    congr 1
    omega
  · rw [i2c_beginTransmission_closed] at g3
    simp only [bothLow, hempty] at g3
    simp only [i2c_available, g3]
    omega

/-- Three bytes requested from a slave that never stretches the clock. -/
theorem i2c_requestFrom_returns_quantity_witness :
    ∃ s1 w1, i2c_requestFrom 1 idleSensor ackWorld 0x1E ((3 : Nat) : Int) = Run.ret 3 s1 w1 ∧
      i2c_available s1 = ((3 : Nat) : Int) :=
  i2c_requestFrom_returns_quantity 1 idleSensor ackWorld 0x1E 3 (by decide) (by decide)
    (by decide) rfl (fun k => by simp [ackWorld, idleSensor])

/-! ## C6: received bytes are appended in order -/

/-- C6: let the session hold `k = _i2c_rxBufferLen` bytes and let `k + n ≤ 32`.
If `i2c_requestFrom(address, n)` does not time out, that is, it returns `n` and
not a smaller count, then afterwards the length is `k + n`, the slots below `k`
are unchanged, exactly `8 * n` SDA samples were taken after the address byte,
slot `k + b` holds the value of samples `8b .. 8b+7` read most-significant bit
first, and no other slot changed.  Moreover no run of the call from this
session writes outside `_i2c_rxBuffer[0..31]`. -/
theorem i2c_requestFrom_appends (fuel : Nat) (s : I2CSensor) (w : World) (address n : Nat)
    (s1 : I2CSensor) (w1 : World)
    (hcap : s._i2c_rxBufferLen + n ≤ 32)
    (hrun : i2c_requestFrom fuel s w address (n : Int) = Run.ret n s1 w1) :
    s1._i2c_rxBufferLen = s._i2c_rxBufferLen + n ∧
      (∀ k, k < s._i2c_rxBufferLen → s1._i2c_rxBuffer k = s._i2c_rxBuffer k) ∧
      (sdaSamples (emitted (i2c_beginTransmission s w address 1).2 w1)).length = 8 * n ∧
      (∀ b, b < n → s1._i2c_rxBuffer (s._i2c_rxBufferLen + b) =
        byteOfSamples
          (((sdaSamples (emitted (i2c_beginTransmission s w address 1).2 w1)).drop
            (8 * b)).take 8)) ∧
      (∀ k, s._i2c_rxBufferLen + n ≤ k → s1._i2c_rxBuffer k = s._i2c_rxBuffer k) ∧
      ∀ (fuel2 : Nat) (w2 : World) (address2 : Nat),
        i2c_requestFrom fuel2 s w2 address2 (n : Int) ≠ Run.outOfBounds := by
  have hb : ∀ (w0 : World) (a : Nat),
      (i2c_beginTransmission s w0 a 1).1._i2c_rxBufferLen = s._i2c_rxBufferLen ∧
      (i2c_beginTransmission s w0 a 1).1._i2c_rxBuffer = s._i2c_rxBuffer := by
    intro w0 a
    rw [i2c_beginTransmission_closed]
    exact ⟨rfl, rfl⟩
  have hlast : ∀ (fuel2 : Nat) (w2 : World) (address2 : Nat),
      i2c_requestFrom fuel2 s w2 address2 (n : Int) ≠ Run.outOfBounds := by
    intro fuel2 w2 address2
    have hne := loop_in_bounds fuel2 n 0 (i2c_beginTransmission s w2 address2 1).1
      (i2c_beginTransmission s w2 address2 1).2 (by rw [(hb w2 address2).1]; exact hcap)
    simp only [i2c_requestFrom, Int.toNat_ofNat]
    cases hl : i2c_requestFrom_loop fuel2 n 0 (i2c_beginTransmission s w2 address2 1).1
        (i2c_beginTransmission s w2 address2 1).2 with
    | complete s2 w3 => simp
    | expired i2 s2 w3 => simp
    | outOfBounds => exact absurd hl hne
    | outOfFuel => simp
  simp only [i2c_requestFrom, Int.toNat_ofNat] at hrun
  cases hl : i2c_requestFrom_loop fuel n 0 (i2c_beginTransmission s w address 1).1
      (i2c_beginTransmission s w address 1).2 with
  | complete s2 w2 =>
    rw [hl] at hrun
    injection hrun with _ e2 e3
    subst e2 e3
    obtain ⟨-, -, g3, -, g5, -, es, hes, hlen, hbytes⟩ := loop_complete_gen _ _ _ _ _ _ _ hl
    rw [(hb w address).1] at g3 g5 hbytes
    rw [(hb w address).2] at g5
    rw [emitted_append _ _ es hes]
    exact ⟨g3, fun k hk => g5 k (Or.inl hk), hlen, hbytes, fun k hk => g5 k (Or.inr hk), hlast⟩
  | expired i2 s2 w2 =>
    rw [hl] at hrun
    injection hrun with e1 _ _
    obtain ⟨c, g0, gc, -⟩ := loop_expired_gen _ _ _ _ _ _ _ _ hl
    omega
  | outOfBounds => rw [hl] at hrun; exact absurd hrun (by simp)
  | outOfFuel => rw [hl] at hrun; exact absurd hrun (by simp)

/-- Two bytes requested into a buffer that already holds 30. -/
theorem i2c_requestFrom_appends_witness :
    ∃ s1 w1,
      i2c_requestFrom 1 { idleSensor with _i2c_rxBufferLen := 30 } ackWorld 0x1E
        ((2 : Nat) : Int) = Run.ret 2 s1 w1 ∧
      (s1._i2c_rxBufferLen = 30 + 2 ∧
        (∀ k, k < 30 → s1._i2c_rxBuffer k = idleSensor._i2c_rxBuffer k) ∧
        (sdaSamples (emitted
          (i2c_beginTransmission { idleSensor with _i2c_rxBufferLen := 30 } ackWorld 0x1E 1).2
          w1)).length = 8 * 2 ∧
        (∀ b, b < 2 → s1._i2c_rxBuffer (30 + b) =
          byteOfSamples
            (((sdaSamples (emitted
              (i2c_beginTransmission { idleSensor with _i2c_rxBufferLen := 30 }
                ackWorld 0x1E 1).2 w1)).drop (8 * b)).take 8)) ∧
        (∀ k, 30 + 2 ≤ k → s1._i2c_rxBuffer k = idleSensor._i2c_rxBuffer k) ∧
        ∀ (fuel2 : Nat) (w2 : World) (address2 : Nat),
          i2c_requestFrom fuel2 { idleSensor with _i2c_rxBufferLen := 30 } w2 address2
            ((2 : Nat) : Int) ≠ Run.outOfBounds) :=
  ⟨_, _, rfl,
    i2c_requestFrom_appends 1 { idleSensor with _i2c_rxBufferLen := 30 } ackWorld 0x1E 2 _ _
      (by decide) rfl⟩

theorem bits_split (fuel a b resp : Nat) (s : I2CSensor) (w : World) :
    i2c_requestFrom_bits fuel (a + b) resp s w =
      match i2c_requestFrom_bits fuel a resp s w with
      | BitsResult.byte r2 s2 w2 => i2c_requestFrom_bits fuel b r2 s2 w2
      | BitsResult.expired s2 w2 => BitsResult.expired s2 w2
      | BitsResult.outOfFuel => BitsResult.outOfFuel := by
  induction a generalizing resp s w with
  | zero => simp [i2c_requestFrom_bits]
  | succ a ih =>
    rw [show a + 1 + b = (a + b) + 1 by omega]
    simp only [i2c_requestFrom_bits]
    cases hw : i2c_requestFrom_wait fuel (time1 (_i2c_scl_write s w true).2).1
        (_i2c_scl_write s w true).1 (time1 (_i2c_scl_write s w true).2).2 with
    | outOfFuel => rfl
    | expired w2 => rfl
    | high w2 => exact ih _ _ _

theorem loop_split (fuel a b i : Nat) (s : I2CSensor) (w : World) :
    i2c_requestFrom_loop fuel (a + b) i s w =
      match i2c_requestFrom_loop fuel a i s w with
      | ReadResult.complete s2 w2 => i2c_requestFrom_loop fuel b (i + a) s2 w2
      | ReadResult.expired i2 s2 w2 => ReadResult.expired i2 s2 w2
      | ReadResult.outOfBounds => ReadResult.outOfBounds
      | ReadResult.outOfFuel => ReadResult.outOfFuel := by
  induction a generalizing i s w with
  | zero => simp [i2c_requestFrom_loop]
  | succ a ih =>
    rw [show a + 1 + b = (a + b) + 1 by omega]
    simp only [i2c_requestFrom_loop]
    cases hb : i2c_requestFrom_bits fuel 8 0 (_i2c_sda_write s w true).1
        (_i2c_sda_write s w true).2 with
    | outOfFuel => rfl
    | expired s2 w2 => rfl
    | byte resp s2 w2 =>
      simp only []
      split_ifs
      · rw [ih, show i + 1 + a = i + (a + 1) by omega]
      · rfl

/-! ## C7: clock-stretch timeout -/

/-- C7: let the first `i` bytes of `i2c_requestFrom(address, quantity)` have been
completed (`hbytes`, reaching `s2`, `w2`) and the first `j < 8` bits of byte `i`
have been read (`hbits`, reaching `w3`), with any amount of clock stretching
so far.  Suppose that from then on every SCL read returns low and that poll
number `m` of the wait for bit `j` is the first at which the timer exceeds the
start of that wait by more than 1000 (earlier polls, also one at exactly
start + 1000, do not abort).  Then, with `i < quantity` and fuel for `m + 1`
polls, the call returns `i`; the length has grown by exactly `i`; the `i` new
slots hold the bytes assembled from the samples in order; every other slot,
the one after them included, is unchanged (the partial byte is not
appended); and the call ends exactly at poll `m`, its last logged event
being that timer reading. -/
theorem i2c_requestFrom_timeout (fuel : Nat) (s : I2CSensor) (w : World) (address : Nat)
    (quantity : Int) (i j m : Nat) (s2 : I2CSensor) (w2 : World) (r3 : Nat)
    (s3 : I2CSensor) (w3 : World)
    (hi : (i : Int) < quantity) (hj : j < 8) (hfuel : m < fuel)
    (hbytes : i2c_requestFrom_loop fuel i 0 (i2c_beginTransmission s w address 1).1
      (i2c_beginTransmission s w address 1).2 = ReadResult.complete s2 w2)
    (hbits : i2c_requestFrom_bits fuel j 0 (_i2c_sda_write s2 w2 true).1
      (_i2c_sda_write s2 w2 true).2 = BitsResult.byte r3 s3 w3)
    (hlow : ∀ k, w.portIn (w3.reads + k) w._i2c_HTSPB s._i2c_scl = 0)
    (hpass : w.timer (w3.ticks + 1 + m) > w.timer w3.ticks + 1000)
    (hnot : ∀ k, k < m → w.timer (w3.ticks + 1 + k) ≤ w.timer w3.ticks + 1000) :
    ∃ s1 w1, i2c_requestFrom fuel s w address quantity = Run.ret i s1 w1 ∧
      s1._i2c_rxBufferLen = s._i2c_rxBufferLen + i ∧
      (∀ k, k < s._i2c_rxBufferLen ∨ s._i2c_rxBufferLen + i ≤ k →
        s1._i2c_rxBuffer k = s._i2c_rxBuffer k) ∧
      (∀ b, b < i → s1._i2c_rxBuffer (s._i2c_rxBufferLen + b) =
        byteOfSamples
          (((sdaSamples (emitted (i2c_beginTransmission s w address 1).2 w1)).drop
            (8 * b)).take 8)) ∧
      w1.reads = w3.reads + m + 1 ∧
      w1.ticks = w3.ticks + 1 + m + 1 ∧
      w1.log.getLast? = some (Event.time (w.timer (w3.ticks + 1 + m))) := by
  have hb : i2c_beginTransmission s w address 1 =
      (bothLow s,
       { w with reads := w.reads + 1,
                log := w.log ++ startEvents s w._i2c_HTSPB ++
                  writeEvents (bothLow s) w._i2c_HTSPB (((address <<< 1) ||| 1) % 256)
                    (w.portIn w.reads w._i2c_HTSPB s._i2c_sda) }) :=
    i2c_beginTransmission_closed s w address 1
  -- the environment and the SCL pin are the same all along
  obtain ⟨-, c2, -, -, -, he2, -⟩ := loop_complete_gen _ _ _ _ _ _ _ hbytes
  obtain ⟨c3, he3, -⟩ := bits_byte_gen _ _ _ _ _ _ _ _ hbits
  have hscl : s3._i2c_scl = s._i2c_scl := by
    rw [c3]
    split_ifs
    · rw [show (_i2c_sda_write s2 w2 true).1._i2c_scl = s2._i2c_scl from rfl, c2, hb]; rfl
    · rw [show ({ (_i2c_sda_write s2 w2 true).1 with _i2c_scl_state := false } :
        I2CSensor)._i2c_scl = s2._i2c_scl from rfl, c2, hb]; rfl
  have henv : SameEnv w w3 := by
    have h1 : SameEnv w (i2c_beginTransmission s w address 1).2 := by
      rw [hb]; exact ⟨rfl, rfl, rfl⟩
    have h2 : SameEnv w2 (_i2c_sda_write s2 w2 true).2 := ⟨rfl, rfl, rfl⟩
    exact SameEnv.trans (SameEnv.trans (SameEnv.trans h1 he2) h2) he3
  -- bit `j` stalls
  obtain ⟨e, he⟩ : ∃ e, 8 = j + (e + 1) := ⟨7 - j, by omega⟩
  obtain ⟨w1, g1, g2, g3, g4⟩ := bits_stall 0 m fuel (e + 1) r3 s3 w3 (by omega) hfuel
    (fun p hp => absurd hp (by omega))
    (fun k => by
      rw [henv.1, henv.2.1, hscl]
      simpa using hlow k)
    (by rw [henv.2.2]; simpa using hpass)
    (fun k hk => by rw [henv.2.2]; simpa using hnot k hk)
  have hbyte : i2c_requestFrom_bits fuel 8 0 (_i2c_sda_write s2 w2 true).1
      (_i2c_sda_write s2 w2 true).2 =
      BitsResult.expired { s3 with _i2c_scl_state := true } w1 := by
    rw [he, bits_split, hbits]
    exact g1
  -- so the outer loop leaves through `return i`
  obtain ⟨d, hd⟩ : ∃ d, quantity.toNat = i + (d + 1) := ⟨quantity.toNat - i - 1, by omega⟩
  have hfull : i2c_requestFrom_loop fuel quantity.toNat 0
      (i2c_beginTransmission s w address 1).1 (i2c_beginTransmission s w address 1).2 =
      ReadResult.expired i { s3 with _i2c_scl_state := true } w1 := by
    rw [hd, loop_split, hbytes]
    simp only [i2c_requestFrom_loop, hbyte, Nat.zero_add]
  obtain ⟨c, g0, -, -, -, -, -, q4, q4b, q5, -, es, hes, -, hbytes2⟩ :=
    loop_expired_gen _ _ _ _ _ _ _ _ hfull
  have hc : c = i := by omega
  subst hc
  have hlen : (i2c_beginTransmission s w address 1).1._i2c_rxBufferLen = s._i2c_rxBufferLen := by
    rw [hb]; rfl
  have hbuf : (i2c_beginTransmission s w address 1).1._i2c_rxBuffer = s._i2c_rxBuffer := by
    rw [hb]; rfl
  rw [hlen] at q4 q4b q5 hbytes2
  rw [hbuf] at q5
  refine ⟨_, w1, ?_, q4, q5, ?_, ?_, ?_, ?_⟩
  · simp only [i2c_requestFrom, hfull]
    congr 1
    rcases Nat.eq_zero_or_pos c with h0 | h0
    · omega
    · have := q4b h0; omega
  · rw [emitted_append _ _ es hes]
    exact hbytes2
  · rw [g2]; omega
  · rw [g3]
  · rw [g4, henv.2.2]

/-- A slave that delivers one byte and three bits and then holds SCL low: the
call for two bytes returns 1 at the first poll of the stalled wait. -/
theorem i2c_requestFrom_timeout_witness :
    ∃ s1 w1, i2c_requestFrom 1 idleSensor stallWorld 0x1E 2 = Run.ret 1 s1 w1 ∧
      s1._i2c_rxBufferLen = 1 ∧ s1._i2c_rxBuffer 0 = 255 ∧ s1._i2c_rxBuffer 1 = 0 ∧
      w1.reads = 24 ∧ w1.ticks = 13 ∧
      w1.log.getLast? = some (Event.time 12012) := by
  obtain ⟨s2, w2, hbytes, hr2, ht2⟩ := loop_progress 0 1 0
    (i2c_beginTransmission idleSensor stallWorld 0x1E 1).1
    (i2c_beginTransmission idleSensor stallWorld 0x1E 1).2 (by decide)
    (fun p hp => by
      rw [i2c_beginTransmission_closed]
      simp [stallWorld]
      omega)
  obtain ⟨-, c2, -, -, -, he2, -⟩ := loop_complete_gen _ _ _ _ _ _ _ hbytes
  rw [i2c_beginTransmission_closed] at c2 he2 hr2 ht2
  obtain ⟨r3, w3, hbits, hr3, ht3⟩ := bits_progress 0 3 0 (_i2c_sda_write s2 w2 true).1
    (_i2c_sda_write s2 w2 true).2
    (fun p hp => by
      have e1 : (_i2c_sda_write s2 w2 true).2.portIn = stallWorld.portIn := he2.2.1
      have e2 : (_i2c_sda_write s2 w2 true).2.reads = w2.reads := rfl
      rw [e1, e2, hr2]
      simp [stallWorld]
      omega)
  have e3 : (_i2c_sda_write s2 w2 true).2.reads = w2.reads := rfl
  have e4 : (_i2c_sda_write s2 w2 true).2.ticks = w2.ticks := rfl
  rw [e3, hr2] at hr3
  rw [e4, ht2] at ht3
  simp only [stallWorld] at hr3 ht3
  obtain ⟨s1, w1, q1, q2, q3, q4, q5, q6, q7⟩ :=
    i2c_requestFrom_timeout 1 idleSensor stallWorld 0x1E 2 1 3 0 s2 w2 r3 _ w3
      (by decide) (by decide) (by decide) hbytes hbits
      (fun k => by rw [hr3]; simp [stallWorld])
      (by rw [ht3]; simp [stallWorld])
      (fun k hk => absurd hk (by omega))
  refine ⟨s1, w1, q1, q2, ?_, ?_, ?_, ?_, ?_⟩
  · have hs : ∃ sx wx, i2c_requestFrom 1 idleSensor stallWorld 0x1E 2 = Run.ret 1 sx wx ∧
        sx._i2c_rxBuffer 0 = 255 := ⟨_, _, rfl, rfl⟩
    obtain ⟨sx, wx, hx1, hx2⟩ := hs
    rw [q1] at hx1
    injection hx1 with _ hx3 _
    rw [hx3]; exact hx2
  · exact q3 1 (Or.inr (by decide))
  · rw [q5, hr3]
  · rw [q6, ht3]
  · rw [q7, ht3]; rfl

/-! ## C8: `i2c_read` is a FIFO dequeue -/

theorem i2c_read_shift_eq (n i : Nat) (s : I2CSensor) (h : i + n < 32) :
    i2c_read_shift n i s =
      some { s with _i2c_rxBuffer := fun k =>
        if i ≤ k ∧ k < i + n then s._i2c_rxBuffer (k + 1) else s._i2c_rxBuffer k } := by
  induction n generalizing i s with
  | zero =>
    simp only [i2c_read_shift]
    congr 1
    have : (fun k => if i ≤ k ∧ k < i + 0 then s._i2c_rxBuffer (k + 1)
        else s._i2c_rxBuffer k) = s._i2c_rxBuffer := by
      funext k
      rw [if_neg (by omega)]
    rw [this]
  | succ n ih =>
    simp only [i2c_read_shift, rxCapacity]
    rw [if_pos (by omega), ih (i + 1) _ (by omega)]
    congr 2
    funext k
    dsimp only
    split_ifs <;> first | rfl | (exfalso; omega) | (subst_vars; rfl)

theorem contents_cons (s : I2CSensor) (x : Nat) (xs : List Nat) (hc : contents s = x :: xs) :
    s._i2c_rxBufferLen = xs.length + 1 ∧ x = s._i2c_rxBuffer 0 ∧
      xs = (List.range xs.length).map (fun k => s._i2c_rxBuffer (k + 1)) := by
  have hlen : s._i2c_rxBufferLen = xs.length + 1 := by
    have := congrArg List.length hc
    simpa [contents] using this
  unfold contents at hc
  rw [hlen, List.range_succ_eq_map, List.map_cons, List.map_map] at hc
  injection hc with h1 h2
  exact ⟨hlen, h1.symm, h2.symm⟩

theorem i2c_read_step (s : I2CSensor) (w : World) (x : Nat) (xs : List Nat)
    (hc : contents s = x :: xs) (h32 : s._i2c_rxBufferLen ≤ 32) :
    ∃ s1, i2c_read s w = Run.ret x s1 w ∧ contents s1 = xs ∧
      s1._i2c_rxBufferLen = xs.length ∧ s1._i2c_rxBufferLen ≤ 32 := by
  obtain ⟨hlen, hx, hxs⟩ := contents_cons s x xs hc
  have hshift := i2c_read_shift_eq (s._i2c_rxBufferLen - 1) 0 s (by omega)
  have hdec : (s._i2c_rxBufferLen + 255) % 256 = xs.length := by omega
  refine ⟨{ s with
      _i2c_rxBuffer := fun k =>
        if 0 ≤ k ∧ k < 0 + (s._i2c_rxBufferLen - 1) then s._i2c_rxBuffer (k + 1)
        else s._i2c_rxBuffer k,
      _i2c_rxBufferLen := (s._i2c_rxBufferLen + 255) % 256 }, ?_, ?_, hdec, ?_⟩
  · simp only [i2c_read, hshift, hx]
  · simp only [contents, hdec]
    rw [hxs]
    simp only [List.length_map, List.length_range]
    apply List.map_congr_left
    intro k hk
    rw [List.mem_range] at hk
    rw [if_pos (by omega)]
  · simp only [hdec]; omega

theorem i2c_read_times_all (w : World) (ys : List Nat) (s : I2CSensor)
    (hc : contents s = ys) (h32 : s._i2c_rxBufferLen ≤ 32) :
    i2c_read_times ys.length s w = some (expectedReads ys) := by
  induction ys generalizing s with
  | nil => rfl
  | cons y ys ih =>
    obtain ⟨s1, e1, e2, e3, e4⟩ := i2c_read_step s w y ys hc h32
    simp only [List.length_cons, i2c_read_times, e1, ih s1 e2 e4, expectedReads,
      i2c_available, e3]

/-- C8: if the buffer holds `x :: xs` (between 1 and 32 bytes, oldest first),
`i2c_read` returns `x`, leaves the buffer holding `xs` in the same order,
lowers `i2c_available()` by exactly one and leaves the world, hence the lines,
untouched; and as many successive `i2c_read` calls as there are bytes return
them in order while `i2c_available()` counts down to 0. -/
theorem i2c_read_fifo (s : I2CSensor) (w : World) (x : Nat) (xs : List Nat)
    (hc : contents s = x :: xs) (h32 : s._i2c_rxBufferLen ≤ 32) :
    (∃ s1, i2c_read s w = Run.ret x s1 w ∧ contents s1 = xs ∧
        i2c_available s1 = i2c_available s - 1) ∧
      i2c_available s = ((x :: xs).length : Int) ∧
      i2c_read_times (x :: xs).length s w = some (expectedReads (x :: xs)) := by
  obtain ⟨s1, e1, e2, e3, -⟩ := i2c_read_step s w x xs hc h32
  obtain ⟨hlen, -, -⟩ := contents_cons s x xs hc
  refine ⟨⟨s1, e1, e2, ?_⟩, ?_, i2c_read_times_all w (x :: xs) s hc h32⟩
  · simp only [i2c_available, e3, hlen]
    push_cast
    ring
  · simp only [i2c_available, hlen, List.length_cons]

/-- Draining a buffer that holds 7, 8, 9. -/
theorem i2c_read_fifo_witness :
    (∃ s1, i2c_read threeBytes lowWorld = Run.ret 7 s1 lowWorld ∧ contents s1 = [8, 9] ∧
        i2c_available s1 = i2c_available threeBytes - 1) ∧
      i2c_available threeBytes = (([7, 8, 9] : List Nat).length : Int) ∧
      i2c_read_times ([7, 8, 9] : List Nat).length threeBytes lowWorld =
        some (expectedReads [7, 8, 9]) :=
  i2c_read_fifo threeBytes lowWorld 7 [8, 9] (by decide) (by decide)

/-! ## C9 and C10: the array form of `i2c_write` -/

theorem bothLow_bothLow (s : I2CSensor) : bothLow (bothLow s) = bothLow s := rfl

theorem countP_range_succ (p : Nat → Bool) (n : Nat) :
    (List.range (n + 1)).countP p =
      (if p 0 then 1 else 0) + (List.range n).countP (fun k => p (k + 1)) := by
  rw [List.range_succ_eq_map, List.countP_cons, List.countP_map, Nat.add_comm]
  rfl

theorem i2c_write_array_loop_eq (n i : Nat) (ack : Int) (values : Nat → Nat)
    (s : I2CSensor) (w : World) :
    i2c_write_array_loop n i ack values s w =
      (ack + ((List.range n).countP
          (fun k => w.portIn (w.reads + k) w._i2c_HTSPB s._i2c_sda == 0) : Nat),
       if n = 0 then s else bothLow s,
       { w with reads := w.reads + n,
                log := w.log ++ arrayEvents w._i2c_HTSPB
                  (fun k => w.portIn k w._i2c_HTSPB s._i2c_sda) values s n i w.reads }) := by
  induction n generalizing i ack s w with
  | zero => simp [i2c_write_array_loop, arrayEvents]
  | succ n ih =>
    simp only [i2c_write_array_loop]
    rw [i2c_write_eq, ih, countP_range_succ]
    refine Prod.ext ?_ (Prod.ext ?_ ?_)
    · simp only [Nat.add_zero, bothLow]
      have e : ∀ k, w.reads + 1 + k = w.reads + (k + 1) := fun k => by omega
      simp only [e]
      split_ifs <;> first | (simp_all; done) | (simp_all; omega)
    · simp only [if_neg (Nat.succ_ne_zero n)]
      split_ifs <;> rfl
    · simp only [arrayEvents, bothLow, List.append_assoc]
      congr 1
      omega

theorem i2c_write_array_emitted (s : I2CSensor) (w : World) (values : Nat → Nat)
    (length : Int) :
    emitted w (i2c_write_array s w values length).2.2 =
      arrayEvents w._i2c_HTSPB (fun k => w.portIn k w._i2c_HTSPB s._i2c_sda) values s
        length.toNat 0 w.reads := by
  apply emitted_append
  rw [i2c_write_array, i2c_write_array_loop_eq]

theorem ackAt_eq (s : I2CSensor) (w : World) (values : Nat → Nat) (i : Nat) :
    ackAt s w values i = (w.portIn (w.reads + i) w._i2c_HTSPB s._i2c_sda == 0) := by
  simp only [ackAt, stateBefore, i2c_write_array_loop_eq, i2c_write_eq]
  split_ifs <;> rfl

theorem countP_range_le (p : Nat → Bool) (n : Nat) : (List.range n).countP p ≤ n := by
  have := List.countP_le_length p (l := List.range n)
  simpa using this

/-- C9: for every array and every `length`, the array form of `i2c_write`
returns the number of indices `i` in `[0, length)` whose single-byte write
returned true; that write returns true exactly when its SDA read, read number
`i` of the call, gives 0.  The result is never negative and, for a
non-negative `length`, at most `length`; for three bytes of which only the
second is not acknowledged it is 2. -/
theorem i2c_write_array_count (s : I2CSensor) (w : World) (values : Nat → Nat)
    (length : Int) :
    (i2c_write_array s w values length).1 =
        ((List.range length.toNat).countP (ackAt s w values) : Nat) ∧
      (∀ i, ackAt s w values i =
        (w.portIn (w.reads + i) w._i2c_HTSPB s._i2c_sda == 0)) ∧
      0 ≤ (i2c_write_array s w values length).1 ∧
      (0 ≤ length → (i2c_write_array s w values length).1 ≤ length) ∧
      ∀ a b c : Nat,
        w.portIn w.reads w._i2c_HTSPB s._i2c_sda = 0 →
        w.portIn (w.reads + 1) w._i2c_HTSPB s._i2c_sda ≠ 0 →
        w.portIn (w.reads + 2) w._i2c_HTSPB s._i2c_sda = 0 →
        (i2c_write_array s w (fun i => [a, b, c].getD i 0) 3).1 = 2 := by
  have hfun : ackAt s w values =
      fun k => w.portIn (w.reads + k) w._i2c_HTSPB s._i2c_sda == 0 :=
    funext (ackAt_eq s w values)
  have hval : (i2c_write_array s w values length).1 =
      ((List.range length.toNat).countP (ackAt s w values) : Nat) := by
    rw [i2c_write_array, i2c_write_array_loop_eq, hfun]
    simp
  refine ⟨hval, ackAt_eq s w values, ?_, ?_, ?_⟩
  · rw [hval]; exact Int.natCast_nonneg _
  · intro h0
    rw [hval]
    have := countP_range_le (ackAt s w values) length.toNat
    omega
  · intro a b c h0 h1 h2
    rw [i2c_write_array, i2c_write_array_loop_eq]
    simp [List.range_succ, List.countP_cons, h0, h1, h2]

/-- Three bytes written to a slave that does not acknowledge the second one:
all three are sent and two acknowledgements are counted. -/
theorem i2c_write_array_nack_second :
    (i2c_write_array idleSensor nackSecondWorld (fun i => [0x41, 0x42, 0x43].getD i 0) 3).1
      = 2 := by
  decide

theorem lineWrites_append (a b : List Event) :
    lineWrites (a ++ b) = lineWrites a ++ lineWrites b := by
  simp [lineWrites, List.filter_append]

theorem lineWrites_writeEvents (s : I2CSensor) (link v r : Nat) :
    lineWrites (writeEvents s link v r) = lineWrites (writeEvents s link v 0) := by
  simp [writeEvents, bitEvents, ackEvents, lineWrites]

theorem lineWrites_writeEvents_length (s : I2CSensor) (link v r : Nat) :
    (lineWrites (writeEvents s link v r)).length = 28 := by
  simp [writeEvents, bitEvents, ackEvents, lineWrites]

theorem concatFrom_congr (f g : Nat → List Event) (n i : Nat)
    (h : ∀ j, i ≤ j → f j = g j) : concatFrom f n i = concatFrom g n i := by
  induction n generalizing i with
  | zero => rfl
  | succ n ih =>
    simp only [concatFrom]
    rw [h i (Nat.le_refl i), ih (i + 1) (fun j hj => h j (by omega))]

theorem lineWrites_arrayEvents (link : Nat) (input : Nat → Nat) (values : Nat → Nat)
    (s : I2CSensor) (n i k : Nat) :
    lineWrites (arrayEvents link input values (bothLow s) n i k) =
      concatFrom (fun j => lineWrites (writeEvents (bothLow s) link (values j % 256) 0))
        n i := by
  induction n generalizing i k with
  | zero => rfl
  | succ n ih =>
    simp only [arrayEvents, concatFrom, lineWrites_append, bothLow_bothLow]
    rw [lineWrites_writeEvents, ih]

theorem lineWrites_arrayEvents_first (link : Nat) (input : Nat → Nat) (values : Nat → Nat)
    (s : I2CSensor) (n : Nat) (k : Nat) :
    lineWrites (arrayEvents link input values s n 0 k) =
      concatFrom (fun j => lineWrites
        (writeEvents (if j = 0 then s else bothLow s) link (values j % 256) 0)) n 0 := by
  cases n with
  | zero => rfl
  | succ n =>
    simp only [arrayEvents, concatFrom, lineWrites_append]
    rw [lineWrites_writeEvents, lineWrites_arrayEvents, if_pos trivial]
    congr 1
    apply concatFrom_congr
    intro j hj
    rw [if_neg (by omega)]

theorem concatFrom_length (f : Nat → List Event) (c n i : Nat)
    (h : ∀ j, (f j).length = c) : (concatFrom f n i).length = c * n := by
  induction n generalizing i with
  | zero => rfl
  | succ n ih =>
    simp only [concatFrom, List.length_append, h, ih]
    ring

/-- C10: the line writes (with their masks) emitted by the array form of
`i2c_write` do not depend on what the hardware reads return: started from the
same session with any other read oracle and read counter they are the same
list, which is the concatenation in index order of the line writes of the
single-byte writes of `values[0]`, ..., `values[length-1]` (the first one
entered in the starting session, the others with both lines low); its length
is 28 per byte whatever is acknowledged. -/
theorem i2c_write_array_writes_independent (s : I2CSensor) (w : World)
    (values : Nat → Nat) (length : Int) (input2 : Nat → Nat → Nat → Nat) (reads2 : Nat) :
    lineWrites (emitted w (i2c_write_array s w values length).2.2) =
        lineWrites (emitted { w with portIn := input2, reads := reads2 }
          (i2c_write_array s { w with portIn := input2, reads := reads2 }
            values length).2.2) ∧
      lineWrites (emitted w (i2c_write_array s w values length).2.2) =
        concatFrom (fun i => lineWrites (emitted w
          (i2c_write (if i = 0 then s else bothLow s) w (values i % 256)).2.2))
          length.toNat 0 ∧
      (lineWrites (emitted w (i2c_write_array s w values length).2.2)).length =
        28 * length.toNat ∧
      masks (emitted w (i2c_write_array s w values length).2.2) =
        masks (emitted { w with portIn := input2, reads := reads2 }
          (i2c_write_array s { w with portIn := input2, reads := reads2 }
            values length).2.2) := by
  have hsingle : (fun i => lineWrites (emitted w
      (i2c_write (if i = 0 then s else bothLow s) w (values i % 256)).2.2)) =
      fun j => lineWrites
        (writeEvents (if j = 0 then s else bothLow s) w._i2c_HTSPB (values j % 256) 0) := by
    funext i
    rw [i2c_write_emitted, lineWrites_writeEvents]
  have hmasks : ∀ es : List Event, masks es = masks (lineWrites es) := by
    intro es
    induction es with
    | nil => rfl
    | cons e es ih =>
      cases e <;> simp_all [masks, lineWrites]
  rw [i2c_write_array_emitted, i2c_write_array_emitted, hsingle]
  refine ⟨?_, ?_, ?_, ?_⟩
  · rw [lineWrites_arrayEvents_first, lineWrites_arrayEvents_first]
  · rw [lineWrites_arrayEvents_first]
  · rw [lineWrites_arrayEvents_first]
    exact concatFrom_length _ 28 _ _ (fun j => lineWrites_writeEvents_length _ _ _ _)
  · rw [hmasks, lineWrites_arrayEvents_first, hmasks (arrayEvents _ _ _ _ _ _ _),
      lineWrites_arrayEvents_first]

/-! ## C11: the string form of `i2c_write` -/

theorem charToUbyte_mod (c : Int) : charToUbyte c % 256 = charToUbyte c := by
  unfold charToUbyte
  omega

theorem i2c_write_string_loop_eq (n i : Nat) (ack : Int) (str : List Int)
    (s : I2CSensor) (w : World) :
    i2c_write_string_loop n i ack str s w =
      i2c_write_array_loop n i ack (fun k => charToUbyte (str.getD k 0)) s w := by
  induction n generalizing i ack s w with
  | zero => rfl
  | succ n ih =>
    simp only [i2c_write_string_loop, i2c_write_array_loop, charToUbyte_mod]
    exact ih _ _ _ _

theorem strlen_spec (str : List Int) (hnul : (0 : Int) ∈ str) :
    str[strlen str]? = some 0 ∧ ∀ i, i < strlen str → str.getD i 0 ≠ 0 := by
  induction str with
  | nil => simp at hnul
  | cons c cs ih =>
    by_cases hc : c = 0
    · subst hc
      simp [strlen]
    · have hmem : (0 : Int) ∈ cs := by
        rcases List.mem_cons.mp hnul with h | h
        · exact absurd h.symm hc
        · exact h
      obtain ⟨h1, h2⟩ := ih hmem
      have hlen : strlen (c :: cs) = strlen cs + 1 := by
        simp [strlen, List.takeWhile_cons, hc]
      rw [hlen]
      refine ⟨by simpa using h1, ?_⟩
      intro i hi
      cases i with
      | zero => simpa using hc
      | succ i => simpa using h2 i (by omega)

/-- C11: for every NUL-terminated string, the string form of `i2c_write` gives
the same triple of return value, final session and final world (hence the same
emitted line writes) as the array form called with `n = strlen(str)` and
`bytes[i]` the 8-bit value of character `i`; `n` is the index of the first
NUL. -/
theorem i2c_write_string_eq_array (s : I2CSensor) (w : World) (str : List Int)
    (hnul : (0 : Int) ∈ str) :
    i2c_write_string s w str =
        i2c_write_array s w (fun i => charToUbyte (str.getD i 0)) (strlen str : Int) ∧
      lineWrites (emitted w (i2c_write_string s w str).2.2) =
        lineWrites (emitted w
          (i2c_write_array s w (fun i => charToUbyte (str.getD i 0)) (strlen str : Int)).2.2) ∧
      str[strlen str]? = some 0 ∧ ∀ i, i < strlen str → str.getD i 0 ≠ 0 := by
  have h : i2c_write_string s w str =
      i2c_write_array s w (fun i => charToUbyte (str.getD i 0)) (strlen str : Int) := by
    simp only [i2c_write_string, i2c_write_array, Int.toNat_ofNat, i2c_write_string_loop_eq]
  exact ⟨h, by rw [h], strlen_spec str hnul⟩

/-- The string "Hi" with one character of negative `char` value in between. -/
theorem i2c_write_string_eq_array_witness :
    i2c_write_string idleSensor nackSecondWorld [72, -1, 105, 0] =
        i2c_write_array idleSensor nackSecondWorld
          (fun i => charToUbyte (([72, -1, 105, 0] : List Int).getD i 0))
          (strlen [72, -1, 105, 0] : Int) ∧
      lineWrites (emitted nackSecondWorld
          (i2c_write_string idleSensor nackSecondWorld [72, -1, 105, 0]).2.2) =
        lineWrites (emitted nackSecondWorld
          (i2c_write_array idleSensor nackSecondWorld
            (fun i => charToUbyte (([72, -1, 105, 0] : List Int).getD i 0))
            (strlen [72, -1, 105, 0] : Int)).2.2) ∧
      ([72, -1, 105, 0] : List Int)[strlen [72, -1, 105, 0]]? = some 0 ∧
      ∀ i, i < strlen [72, -1, 105, 0] → ([72, -1, 105, 0] : List Int).getD i 0 ≠ 0 :=
  i2c_write_string_eq_array idleSensor nackSecondWorld [72, -1, 105, 0] (by decide)

/-! ## C12: every line write sends the combined mask of both lines -/

theorem pin_mask (p : Nat) (hp : p ≤ 7) : (1 <<< p) % 256 = 2 ^ p := by
  rw [Nat.shiftLeft_eq, Nat.one_mul]
  apply Nat.mod_eq_of_lt
  calc 2 ^ p ≤ 2 ^ 7 := Nat.pow_le_pow_right (by decide) hp
    _ < 256 := by decide

theorem testBit_flag_mul (low : Bool) (p k : Nat) :
    ((if low then 0 else 1) * 2 ^ p).testBit k = (decide (p = k) && !low) := by
  cases low
  · simp [Nat.testBit_two_pow]
  · simp

theorem lineMask_testBit (s : I2CSensor) (sda scl k : Nat) (hsda : sda ≤ 7) (hscl : scl ≤ 7)
    (h1 : s._i2c_sda = 2 ^ sda) (h2 : s._i2c_scl = 2 ^ scl) :
    (lineMask s).testBit k =
      ((decide (sda = k) && !s._i2c_sda_state) || (decide (scl = k) && !s._i2c_scl_state)) := by
  unfold lineMask
  rw [h1, h2, show (256 : Nat) = 2 ^ 8 from rfl, Nat.testBit_mod_two_pow, Nat.testBit_or,
    testBit_flag_mul, testBit_flag_mul]
  by_cases hk : k < 8
  · simp [hk]
  · have e1 : ¬ sda = k := by omega
    have e2 : ¬ scl = k := by omega
    simp [hk, e1, e2]

/-- C12: in a session whose pins were set by `i2c_begin` with two distinct pin
indices `sda`, `scl` in [0,7] (its line states and buffer being whatever they
are), `_i2c_sda_write(val)` and `_i2c_scl_write(val)` record `val` as the state
of their line and change nothing else in the session, and make exactly one
hardware call, with a mask whose bit `sda` is set iff the recorded SDA state is
low, whose bit `scl` is set iff the recorded SCL state is low, and whose other
bits are clear: the other line's last commanded state is sent again. -/
theorem line_write_sends_both_states (s0 : I2CSensor) (w0 w : World) (HTSPB sda scl : Nat)
    (val : Bool) (hsda : sda ≤ 7) (hscl : scl ≤ 7) (hne : sda ≠ scl) :
    (_i2c_sda_write (i2c_begin s0 w0 HTSPB sda scl).1 w val).1 =
        { (i2c_begin s0 w0 HTSPB sda scl).1 with _i2c_sda_state := val } ∧
      (_i2c_scl_write (i2c_begin s0 w0 HTSPB sda scl).1 w val).1 =
        { (i2c_begin s0 w0 HTSPB sda scl).1 with _i2c_scl_state := val } ∧
      (∃ m, emitted w (_i2c_sda_write (i2c_begin s0 w0 HTSPB sda scl).1 w val).2 =
          [Event.write Line.sda val w._i2c_HTSPB m] ∧
        m.testBit sda = !val ∧ m.testBit scl = !s0._i2c_scl_state ∧
        ∀ k, k ≠ sda → k ≠ scl → m.testBit k = false) ∧
      (∃ m, emitted w (_i2c_scl_write (i2c_begin s0 w0 HTSPB sda scl).1 w val).2 =
          [Event.write Line.scl val w._i2c_HTSPB m] ∧
        m.testBit sda = !s0._i2c_sda_state ∧ m.testBit scl = !val ∧
        ∀ k, k ≠ sda → k ≠ scl → m.testBit k = false) := by
  have key : ∀ (s : I2CSensor) (k : Nat), s._i2c_sda = (1 <<< sda) % 256 →
      s._i2c_scl = (1 <<< scl) % 256 →
      (lineMask s).testBit k =
        ((decide (sda = k) && !s._i2c_sda_state) || (decide (scl = k) && !s._i2c_scl_state)) :=
    fun s k e1 e2 => lineMask_testBit s sda scl k hsda hscl
      (e1.trans (pin_mask sda hsda)) (e2.trans (pin_mask scl hscl))
  have hne2 : ¬ scl = sda := fun h => hne h.symm
  refine ⟨rfl, rfl, ⟨_, emitted_append _ _ _ rfl, ?_, ?_, ?_⟩,
    ⟨_, emitted_append _ _ _ rfl, ?_, ?_, ?_⟩⟩
  · rw [key _ sda rfl rfl]; simp [hne2]
  · rw [key _ scl rfl rfl]; simp [hne, i2c_begin]
  · intro k h1 h2
    rw [key _ k rfl rfl]
    simp [Ne.symm h1, Ne.symm h2]
  · rw [key _ sda rfl rfl]; simp [hne2, i2c_begin]
  · rw [key _ scl rfl rfl]; simp [hne]
  · intro k h1 h2
    rw [key _ k rfl rfl]
    simp [Ne.symm h1, Ne.symm h2]

/-- Pins 3 (SDA) and 5 (SCL): releasing SDA while SCL is recorded low sends
the mask 32. -/
theorem line_write_sends_both_states_witness :
    (emitted lowWorld
        (_i2c_sda_write (i2c_begin (bothLow idleSensor) lowWorld 0 3 5).1 lowWorld true).2 =
      [Event.write Line.sda true 0 32]) ∧
    ((_i2c_sda_write (i2c_begin (bothLow idleSensor) lowWorld 0 3 5).1 lowWorld true).1 =
        { (i2c_begin (bothLow idleSensor) lowWorld 0 3 5).1 with _i2c_sda_state := true } ∧
      (_i2c_scl_write (i2c_begin (bothLow idleSensor) lowWorld 0 3 5).1 lowWorld true).1 =
        { (i2c_begin (bothLow idleSensor) lowWorld 0 3 5).1 with _i2c_scl_state := true } ∧
      (∃ m, emitted lowWorld
            (_i2c_sda_write (i2c_begin (bothLow idleSensor) lowWorld 0 3 5).1 lowWorld true).2 =
          [Event.write Line.sda true lowWorld._i2c_HTSPB m] ∧
        m.testBit 3 = !true ∧ m.testBit 5 = !(bothLow idleSensor)._i2c_scl_state ∧
        ∀ k, k ≠ 3 → k ≠ 5 → m.testBit k = false) ∧
      (∃ m, emitted lowWorld
            (_i2c_scl_write (i2c_begin (bothLow idleSensor) lowWorld 0 3 5).1 lowWorld true).2 =
          [Event.write Line.scl true lowWorld._i2c_HTSPB m] ∧
        m.testBit 3 = !(bothLow idleSensor)._i2c_sda_state ∧ m.testBit 5 = !true ∧
        ∀ k, k ≠ 3 → k ≠ 5 → m.testBit k = false)) :=
  ⟨by decide,
    line_write_sends_both_states (bothLow idleSensor) lowWorld lowWorld 0 3 5 true
      (by decide) (by decide) (by decide)⟩

/-! ## C13: the capacity invariant is not maintained -/

set_option maxRecDepth 100000 in
/-- C13 (evaluation at the failing inputs): right after `i2c_init`, one
`i2c_read` leaves `i2c_available()` at 255, above the capacity 32; and a request
for 33 bytes from a slave that never stretches stores its 33rd byte at index
32, outside `_i2c_rxBuffer[32]`. -/
theorem capacity_invariant_broken :
    (∃ s1, i2c_read (i2c_init idleSensor) lowWorld = Run.ret 0 s1 lowWorld ∧
        i2c_available s1 = 255) ∧
      i2c_requestFrom 1 (i2c_init idleSensor) ackWorld 0x1E 33 = Run.outOfBounds :=
  ⟨⟨_, rfl, rfl⟩, rfl⟩

/-! ## C14: a nonzero `write` flag other than 1 -/

/-- C14 (evaluation at the failing input): with `write = 2` the address byte
is `(address << 1) | 2`; for address 0 that is the byte 2, whose
least-significant bit is 0 and whose upper seven bits are 1, so the call is
the write-mode start to address 1. -/
theorem i2c_beginTransmission_flag_two (s : I2CSensor) (w : World) :
    i2c_beginTransmission s w 0 2 = i2c_beginTransmission s w 1 0 ∧
      i2c_beginTransmission s w 0 2 =
        (i2c_write (bothLow s)
          { w with log := w.log ++ startEvents s w._i2c_HTSPB } 2).2 ∧
      (2 : Nat).testBit 0 = false := by
  refine ⟨?_, ?_, by decide⟩
  · rw [i2c_beginTransmission_eq, i2c_beginTransmission_eq]
    rfl
  · rw [i2c_beginTransmission_eq]
    rfl

/-! ## C15: the returned count is a `ubyte` -/

/-- C15 (evaluation at the failing input): for `quantity = -1` the loop body
never runs, no byte is received and the buffer length is unchanged, yet the
call returns 255, the `ubyte` value of -1. -/
theorem i2c_requestFrom_negative_quantity (fuel : Nat) (s : I2CSensor) (w : World)
    (address : Nat) :
    i2c_requestFrom fuel s w address (-1) =
        Run.ret 255 (i2c_beginTransmission s w address 1).1
          (i2c_beginTransmission s w address 1).2 ∧
      (i2c_beginTransmission s w address 1).1._i2c_rxBufferLen = s._i2c_rxBufferLen ∧
      (i2c_beginTransmission s w address 1).1._i2c_rxBuffer = s._i2c_rxBuffer := by
  refine ⟨rfl, ?_, ?_⟩
  · rw [i2c_beginTransmission_closed]; rfl
  · rw [i2c_beginTransmission_closed]; rfl

/-! ## C19: `i2c_read` on an empty buffer -/

/-- C19: on an empty buffer `i2c_read` is not rejected: it returns the content
of slot 0, leaves every slot as it was (no shift) and sets the length to 255,
so that `i2c_available()` is 255 afterwards; the world is untouched. -/
theorem i2c_read_empty (s : I2CSensor) (w : World) (hempty : i2c_available s = 0) :
    i2c_read s w =
        Run.ret (s._i2c_rxBuffer 0) { s with _i2c_rxBufferLen := 255 } w ∧
      i2c_available { s with _i2c_rxBufferLen := 255 } = 255 ∧
      (255 : Int) = (0 - 1) % 2 ^ 8 := by
  have h0 : s._i2c_rxBufferLen = 0 := by
    simpa [i2c_available] using hempty
  refine ⟨?_, rfl, by decide⟩
  simp only [i2c_read, h0, i2c_read_shift]

/-- An empty buffer whose slot 0 still holds 7 from an earlier read. -/
theorem i2c_read_empty_witness :
    i2c_read { threeBytes with _i2c_rxBufferLen := 0 } lowWorld =
        Run.ret 7 { threeBytes with _i2c_rxBufferLen := 255 } lowWorld ∧
      i2c_available { threeBytes with _i2c_rxBufferLen := 255 } = 255 ∧
      (255 : Int) = (0 - 1) % 2 ^ 8 :=
  i2c_read_empty { threeBytes with _i2c_rxBufferLen := 0 } lowWorld rfl

/-! ## The bus-level trace of `i2c_requestFrom` (every slave, every timer) -/

theorem busOps_append (a b : List Event) : busOps (a ++ b) = busOps a ++ busOps b := by
  simp [busOps, ops, List.filterMap_append, List.filter_append]

theorem wait_bus (fuel : Nat) (began : Int) (s : I2CSensor) (w w1 : World)
    (h : i2c_requestFrom_wait fuel began s w = WaitResult.high w1 ∨
      i2c_requestFrom_wait fuel began s w = WaitResult.expired w1) :
    ∃ es, w1.log = w.log ++ es ∧ busOps es = [] := by
  induction fuel generalizing w with
  | zero => simp [i2c_requestFrom_wait] at h
  | succ k ih =>
    simp only [i2c_requestFrom_wait] at h
    split_ifs at h with h1 h2
    · rcases h with h | h
      · injection h with h
        subst h
        exact ⟨[Event.read Line.scl w._i2c_HTSPB s._i2c_scl
          (w.portIn w.reads w._i2c_HTSPB s._i2c_scl)], rfl, rfl⟩
      · exact absurd h (by simp)
    · rcases h with h | h
      · exact absurd h (by simp)
      · injection h with h
        subst h
        exact ⟨[Event.read Line.scl w._i2c_HTSPB s._i2c_scl
            (w.portIn w.reads w._i2c_HTSPB s._i2c_scl),
          Event.time (w.timer w.ticks)],
          by simp [time1, _i2c_scl_read, HTSPBreadIO], rfl⟩
    · obtain ⟨es, hes, hb⟩ := ih _ h
      refine ⟨[Event.read Line.scl w._i2c_HTSPB s._i2c_scl
            (w.portIn w.reads w._i2c_HTSPB s._i2c_scl),
          Event.time (w.timer w.ticks)] ++ es, ?_, ?_⟩
      · rw [hes]
        simp [time1, _i2c_scl_read, HTSPBreadIO, List.append_assoc]
      · rw [busOps_append, hb]
        rfl

theorem bits_bus_byte (fuel n : Nat) (resp : Nat) (s : I2CSensor) (w : World)
    (r1 : Nat) (s1 : I2CSensor) (w1 : World)
    (h : i2c_requestFrom_bits fuel n resp s w = BitsResult.byte r1 s1 w1) :
    ∃ es, w1.log = w.log ++ es ∧ busOps es = repeatOps n readBitOps := by
  induction n generalizing resp s w with
  | zero =>
    simp only [i2c_requestFrom_bits] at h
    injection h with h1 h2 h3
    subst h1 h2 h3
    exact ⟨[], by simp, rfl⟩
  | succ n ih =>
    simp only [i2c_requestFrom_bits] at h
    split at h
    · exact absurd h (by simp)
    · exact absurd h (by simp)
    · rename_i w2 hw
      obtain ⟨es2, hes2, hb2⟩ := wait_bus _ _ _ _ _ (Or.inl hw)
      obtain ⟨es1, hes1, hb1⟩ := ih _ _ _ h
      refine ⟨[Event.write Line.scl true w._i2c_HTSPB
              (lineMask { s with _i2c_scl_state := true }),
            Event.time (w.timer w.ticks)] ++ es2 ++
          [Event.wait 2,
            Event.read Line.sda w2._i2c_HTSPB s._i2c_sda
              (w2.portIn w2.reads w2._i2c_HTSPB s._i2c_sda),
            Event.write Line.scl false w2._i2c_HTSPB
              (lineMask { s with _i2c_scl_state := false })] ++ es1, ?_, ?_⟩
      · rw [hes1]
        simp [_i2c_scl_write, _i2c_sda_read, HTSPBsetupIO, HTSPBreadIO, wait1Msec,
          List.append_assoc]
        rw [hes2]
        simp [_i2c_scl_write, time1, HTSPBsetupIO, List.append_assoc]
      · rw [busOps_append, busOps_append, busOps_append, hb2, hb1]
        rfl

theorem bits_bus_expired (fuel n : Nat) (resp : Nat) (s : I2CSensor) (w : World)
    (s1 : I2CSensor) (w1 : World)
    (h : i2c_requestFrom_bits fuel n resp s w = BitsResult.expired s1 w1) :
    ∃ es j, j < n ∧ w1.log = w.log ++ es ∧
      busOps es = repeatOps j readBitOps ++ [LineOp.set Line.scl true] := by
  induction n generalizing resp s w with
  | zero => simp [i2c_requestFrom_bits] at h
  | succ n ih =>
    simp only [i2c_requestFrom_bits] at h
    split at h
    · exact absurd h (by simp)
    · rename_i w2 hw
      obtain ⟨es2, hes2, hb2⟩ := wait_bus _ _ _ _ _ (Or.inr hw)
      injection h with h1 h2
      subst h1 h2
      refine ⟨[Event.write Line.scl true w._i2c_HTSPB
              (lineMask { s with _i2c_scl_state := true }),
            Event.time (w.timer w.ticks)] ++ es2, 0, by omega, ?_, ?_⟩
      · rw [hes2]
        simp [_i2c_scl_write, time1, HTSPBsetupIO, List.append_assoc]
      · rw [busOps_append, hb2]
        rfl
    · rename_i w2 hw
      obtain ⟨es2, hes2, hb2⟩ := wait_bus _ _ _ _ _ (Or.inl hw)
      obtain ⟨es1, j, hj, hes1, hb1⟩ := ih _ _ _ h
      refine ⟨[Event.write Line.scl true w._i2c_HTSPB
              (lineMask { s with _i2c_scl_state := true }),
            Event.time (w.timer w.ticks)] ++ es2 ++
          [Event.wait 2,
            Event.read Line.sda w2._i2c_HTSPB s._i2c_sda
              (w2.portIn w2.reads w2._i2c_HTSPB s._i2c_sda),
            Event.write Line.scl false w2._i2c_HTSPB
              (lineMask { s with _i2c_scl_state := false })] ++ es1, j + 1, by omega, ?_, ?_⟩
      · rw [hes1]
        simp [_i2c_scl_write, _i2c_sda_read, HTSPBsetupIO, HTSPBreadIO, wait1Msec,
          List.append_assoc]
        rw [hes2]
        simp [_i2c_scl_write, time1, HTSPBsetupIO, List.append_assoc]
      · rw [busOps_append, busOps_append, busOps_append, hb2, hb1]
        rfl

/-- One iteration of the outer loop of `i2c_requestFrom`: its bus-level trace. -/
theorem loop_succ_bus (fuel n i : Nat) (s : I2CSensor) (w : World) :
    i2c_requestFrom_loop fuel (n + 1) i s w = ReadResult.outOfFuel ∨
      (∃ w2 es j, i2c_requestFrom_loop fuel (n + 1) i s w =
          ReadResult.expired i { s with _i2c_sda_state := true, _i2c_scl_state := true } w2 ∧
        j < 8 ∧ w2.log = w.log ++ es ∧
        busOps es = [LineOp.set Line.sda true] ++ repeatOps j readBitOps ++
          [LineOp.set Line.scl true]) ∨
      (∃ resp w2 es, i2c_requestFrom_loop fuel (n + 1) i s w =
          (if s._i2c_rxBufferLen < 32 then
            i2c_requestFrom_loop fuel n (i + 1) (rxStored s resp) w2
          else ReadResult.outOfBounds) ∧
        w2.log = w.log ++ es ∧ busOps es = readByteOps) := by
  simp only [i2c_requestFrom_loop]
  cases hb : i2c_requestFrom_bits fuel 8 0 (_i2c_sda_write s w true).1
      (_i2c_sda_write s w true).2 with
  | outOfFuel => exact Or.inl rfl
  | expired s2 w2 =>
    obtain ⟨hs2, -, -⟩ := bits_expired_gen _ _ _ _ _ _ _ hb
    obtain ⟨es2, j, hj, hes2, hb2⟩ := bits_bus_expired _ _ _ _ _ _ _ hb
    subst hs2
    refine Or.inr (Or.inl ⟨w2,
      [Event.write Line.sda true w._i2c_HTSPB (maskFor s true s._i2c_scl_state)] ++ es2,
      j, rfl, hj, ?_, ?_⟩)
    · rw [hes2]
      simp [_i2c_sda_write, HTSPBsetupIO, maskFor, List.append_assoc]
    · rw [busOps_append, hb2, List.append_assoc]
      rfl
  | byte resp s2 w2 =>
    obtain ⟨hs2, -, -⟩ := bits_byte_gen _ _ _ _ _ _ _ _ hb
    obtain ⟨es2, hes2, hb2⟩ := bits_bus_byte _ _ _ _ _ _ _ _ hb
    rw [if_neg (by decide)] at hs2
    subst hs2
    refine Or.inr (Or.inr ⟨resp, _,
      [Event.write Line.sda true w._i2c_HTSPB (maskFor s true s._i2c_scl_state)] ++ es2 ++
        [Event.write Line.sda false w2._i2c_HTSPB (maskFor s false false),
         Event.write Line.scl true w2._i2c_HTSPB (maskFor s false true),
         Event.write Line.scl false w2._i2c_HTSPB (maskFor s false false)], rfl, ?_, ?_⟩)
    · simp [_i2c_sda_write, _i2c_scl_write, HTSPBsetupIO, maskFor, List.append_assoc, hes2]
    · rw [busOps_append, busOps_append, hb2]
      rfl

theorem loop_bus_complete (fuel n i : Nat) (s : I2CSensor) (w : World)
    (s1 : I2CSensor) (w1 : World)
    (h : i2c_requestFrom_loop fuel n i s w = ReadResult.complete s1 w1) :
    (s._i2c_sda_state = false → s._i2c_scl_state = false →
        s1._i2c_sda_state = false ∧ s1._i2c_scl_state = false) ∧
      ∃ es, w1.log = w.log ++ es ∧ busOps es = repeatOps n readByteOps := by
  induction n generalizing i s w with
  | zero =>
    simp only [i2c_requestFrom_loop] at h
    injection h with h1 h2
    subst h1 h2
    exact ⟨fun a b => ⟨a, b⟩, [], by simp, rfl⟩
  | succ n ih =>
    rcases loop_succ_bus fuel n i s w with h1 | ⟨w2, es, j, h1, -⟩ | ⟨resp, w2, es, h1, hes, hb⟩
    · rw [h1] at h; exact absurd h (by simp)
    · rw [h1] at h; exact absurd h (by simp)
    · rw [h1] at h
      split_ifs at h with hcap
      obtain ⟨g1, es3, hes3, hb3⟩ := ih _ _ _ h
      refine ⟨fun _ _ => g1 rfl rfl, es ++ es3, ?_, ?_⟩
      · rw [hes3, hes, List.append_assoc]
      · rw [busOps_append, hb, hb3]
        rfl

theorem loop_bus_expired (fuel n i : Nat) (s : I2CSensor) (w : World)
    (i1 : Nat) (s1 : I2CSensor) (w1 : World)
    (h : i2c_requestFrom_loop fuel n i s w = ReadResult.expired i1 s1 w1) :
    ∃ es c j, i1 = i + c ∧ c < n ∧ j < 8 ∧ w1.log = w.log ++ es ∧
      busOps es = repeatOps c readByteOps ++
        ([LineOp.set Line.sda true] ++ repeatOps j readBitOps ++ [LineOp.set Line.scl true]) := by
  induction n generalizing i s w with
  | zero => simp [i2c_requestFrom_loop] at h
  | succ n ih =>
    rcases loop_succ_bus fuel n i s w with h1 | ⟨w2, es, j, h1, hj, hes, hb⟩ |
      ⟨resp, w2, es, h1, hes, hb⟩
    · rw [h1] at h; exact absurd h (by simp)
    · rw [h1] at h
      injection h with e1 e2 e3
      subst e1 e2 e3
      exact ⟨es, 0, j, rfl, by omega, hj, hes, by rw [hb]; rfl⟩
    · rw [h1] at h
      split_ifs at h with hcap
      obtain ⟨es3, c, j, g0, gc, gj, hes3, hb3⟩ := ih _ _ _ h
      refine ⟨es ++ es3, c + 1, j, by omega, by omega, gj, ?_, ?_⟩
      · rw [hes3, hes, List.append_assoc]
      · rw [busOps_append, hb, hb3]
        simp only [repeatOps, List.append_assoc]

/-! ## Edges of SDA while SCL is high -/

theorem ops_append (a b : List Event) : ops (a ++ b) = ops a ++ ops b := by
  simp [ops, List.filterMap_append]

theorem linesAfter_append (sda scl : Bool) (a b : List LineOp) :
    linesAfter sda scl (a ++ b) =
      linesAfter (linesAfter sda scl a).1 (linesAfter sda scl a).2 b := by
  induction a generalizing sda scl with
  | nil => rfl
  | cons o os ih =>
    cases o with
    | set l v => cases l <;> simp [linesAfter, ih]
    | sample l => simp [linesAfter, ih]

theorem sdaEdges_append (sda scl : Bool) (a b : List LineOp) :
    sdaEdges sda scl (a ++ b) =
      sdaEdges sda scl a ++
        sdaEdges (linesAfter sda scl a).1 (linesAfter sda scl a).2 b := by
  induction a generalizing sda scl with
  | nil => rfl
  | cons o os ih =>
    cases o with
    | set l v => cases l <;> simp [sdaEdges, linesAfter, ih]
    | sample l => simp [sdaEdges, linesAfter, ih]

theorem linesAfter_filter (sda scl : Bool) (os : List LineOp) :
    linesAfter sda scl (os.filter fun o => o != LineOp.sample Line.scl) =
      linesAfter sda scl os := by
  induction os generalizing sda scl with
  | nil => rfl
  | cons o os ih =>
    cases o with
    | set l v => cases l <;> simp [List.filter_cons, linesAfter, ih]
    | sample l => cases l <;> simp [List.filter_cons, linesAfter, ih]

theorem sdaEdges_filter (sda scl : Bool) (os : List LineOp) :
    sdaEdges sda scl (os.filter fun o => o != LineOp.sample Line.scl) =
      sdaEdges sda scl os := by
  induction os generalizing sda scl with
  | nil => rfl
  | cons o os ih =>
    cases o with
    | set l v => cases l <;> simp [List.filter_cons, sdaEdges, ih]
    | sample l => cases l <;> simp [List.filter_cons, sdaEdges, ih]

theorem sdaEdges_busOps (sda scl : Bool) (es : List Event) :
    sdaEdges sda scl (ops es) = sdaEdges sda scl (busOps es) :=
  (sdaEdges_filter sda scl (ops es)).symm

theorem linesAfter_busOps (sda scl : Bool) (es : List Event) :
    linesAfter sda scl (ops es) = linesAfter sda scl (busOps es) :=
  (linesAfter_filter sda scl (ops es)).symm

theorem readBits_edges (sda : Bool) (j : Nat) :
    sdaEdges sda false (repeatOps j readBitOps) = [] ∧
      linesAfter sda false (repeatOps j readBitOps) = (sda, false) := by
  induction j with
  | zero => exact ⟨rfl, rfl⟩
  | succ j ih =>
    have hb : sdaEdges sda false readBitOps = [] ∧
        linesAfter sda false readBitOps = (sda, false) := ⟨rfl, rfl⟩
    simp only [repeatOps, sdaEdges_append, linesAfter_append, hb.1, hb.2, ih.1, ih.2]
    simp

theorem readByte_edges (sda : Bool) :
    sdaEdges sda false readByteOps = [] ∧
      linesAfter sda false readByteOps = (false, false) := by
  unfold readByteOps
  have h := readBits_edges true 8
  simp only [sdaEdges_append, linesAfter_append]
  simp [sdaEdges, linesAfter, h.1, h.2]

theorem readBytes_edges (c : Nat) :
    sdaEdges false false (repeatOps c readByteOps) = [] ∧
      linesAfter false false (repeatOps c readByteOps) = (false, false) := by
  induction c with
  | zero => exact ⟨rfl, rfl⟩
  | succ c ih =>
    have h := readByte_edges false
    simp only [repeatOps, sdaEdges_append, linesAfter_append, h.1, h.2, ih.1, ih.2]
    simp

theorem readPartial_edges (j : Nat) :
    sdaEdges false false ([LineOp.set Line.sda true] ++ repeatOps j readBitOps ++
        [LineOp.set Line.scl true]) = [] ∧
      linesAfter false false ([LineOp.set Line.sda true] ++ repeatOps j readBitOps ++
        [LineOp.set Line.scl true]) = (true, true) := by
  have h := readBits_edges true j
  simp only [sdaEdges_append, linesAfter_append]
  simp [sdaEdges, linesAfter, h.1, h.2]

theorem ops_startEvents (s : I2CSensor) (link : Nat) :
    ops (startEvents s link) =
      [LineOp.set Line.sda true, LineOp.set Line.scl true,
       LineOp.set Line.sda false, LineOp.set Line.scl false] := by
  simp [startEvents, ops, Event.op]

theorem ops_writeEvents (s : I2CSensor) (link v r : Nat) :
    ops (writeEvents s link v r) = claimedWriteOps v ++ [LineOp.set Line.sda false] := by
  simp [writeEvents, bitEvents, ackEvents, ops, Event.op, claimedWriteOps, bitOps]

theorem start_edges (sda scl : Bool) (s : I2CSensor) (link : Nat) :
    sdaEdges sda scl (ops (startEvents s link)) =
        (if !sda && scl then [true] else []) ++ [false] ∧
      linesAfter sda scl (ops (startEvents s link)) = (false, false) := by
  rw [ops_startEvents]
  cases sda <;> cases scl <;> exact ⟨rfl, rfl⟩

theorem write_edges (sda : Bool) (s : I2CSensor) (link v r : Nat) :
    sdaEdges sda false (ops (writeEvents s link v r)) = [] ∧
      linesAfter sda false (ops (writeEvents s link v r)) = (false, false) ∧
      sdaWritesWhileHigh false (ops (writeEvents s link v r)) = 0 := by
  rw [ops_writeEvents]
  simp [claimedWriteOps, bitOps, sdaEdges, linesAfter, sdaWritesWhileHigh]

/-- The log of a call of `i2c_requestFrom` that returns: the start sequence, the
address byte, then the events of the loop. -/
theorem request_log (fuel : Nat) (s : I2CSensor) (w : World) (address : Nat)
    (quantity : Int) (s1 : I2CSensor) (w1 : World)
    (h : i2c_requestFrom_exit fuel s w address quantity = ReadResult.complete s1 w1 ∨
      ∃ i, i2c_requestFrom_exit fuel s w address quantity = ReadResult.expired i s1 w1) :
    ∃ es, emitted (i2c_beginTransmission s w address 1).2 w1 = es ∧
      emitted w w1 = startEvents s w._i2c_HTSPB ++
        writeEvents (bothLow s) w._i2c_HTSPB (((address <<< 1) ||| 1) % 256)
          (w.portIn w.reads w._i2c_HTSPB s._i2c_sda) ++ es ∧
      ((∃ c, busOps es = repeatOps c readByteOps) ∨
        ∃ c j, busOps es = repeatOps c readByteOps ++
          ([LineOp.set Line.sda true] ++ repeatOps j readBitOps ++
            [LineOp.set Line.scl true])) := by
  have hlog : ∀ es, w1.log = (i2c_beginTransmission s w address 1).2.log ++ es →
      emitted (i2c_beginTransmission s w address 1).2 w1 = es ∧
      emitted w w1 = startEvents s w._i2c_HTSPB ++
        writeEvents (bothLow s) w._i2c_HTSPB (((address <<< 1) ||| 1) % 256)
          (w.portIn w.reads w._i2c_HTSPB s._i2c_sda) ++ es := by
    intro es hes
    refine ⟨emitted_append _ _ es hes, ?_⟩
    apply emitted_append
    rw [hes, i2c_beginTransmission_closed]
    simp only [List.append_assoc]
  unfold i2c_requestFrom_exit at h
  rcases h with h | ⟨i, h⟩
  · obtain ⟨-, es, hes, hb⟩ := loop_bus_complete _ _ _ _ _ _ _ h
    exact ⟨es, (hlog es hes).1, (hlog es hes).2, Or.inl ⟨_, hb⟩⟩
  · obtain ⟨es, c, j, -, -, -, hes, hb⟩ := loop_bus_expired _ _ _ _ _ _ _ _ h
    exact ⟨es, (hlog es hes).1, (hlog es hes).2, Or.inr ⟨c, j, hb⟩⟩

theorem request_edges (fuel : Nat) (s : I2CSensor) (w : World) (address : Nat)
    (quantity : Int) (s1 : I2CSensor) (w1 : World)
    (h : i2c_requestFrom_exit fuel s w address quantity = ReadResult.complete s1 w1 ∨
      ∃ i, i2c_requestFrom_exit fuel s w address quantity = ReadResult.expired i s1 w1) :
    sdaEdges s._i2c_sda_state s._i2c_scl_state (ops (emitted w w1)) =
      (if !s._i2c_sda_state && s._i2c_scl_state then [true] else []) ++ [false] := by
  obtain ⟨es, -, hem, hb⟩ := request_log fuel s w address quantity s1 w1 h
  have h1 := start_edges s._i2c_sda_state s._i2c_scl_state s w._i2c_HTSPB
  have h2 := write_edges false (bothLow s) w._i2c_HTSPB (((address <<< 1) ||| 1) % 256)
    (w.portIn w.reads w._i2c_HTSPB s._i2c_sda)
  have h3 : sdaEdges false false (ops es) = [] := by
    rw [sdaEdges_busOps]
    rcases hb with ⟨c, hb⟩ | ⟨c, j, hb⟩
    · rw [hb]; exact (readBytes_edges c).1
    · rw [hb, sdaEdges_append, (readBytes_edges c).1, (readBytes_edges c).2,
        (readPartial_edges j).1]
      rfl
  rw [hem, ops_append, ops_append, sdaEdges_append, sdaEdges_append, linesAfter_append,
    h1.1, h1.2, h2.1, h2.2.1, h3]
  simp

theorem i2c_requestFrom_of_exit (fuel : Nat) (s : I2CSensor) (w : World) (address : Nat)
    (quantity : Int) :
    i2c_requestFrom fuel s w address quantity =
      match i2c_requestFrom_exit fuel s w address quantity with
      | ReadResult.complete s1 w1 => Run.ret (quantity % 256).toNat s1 w1
      | ReadResult.expired i s1 w1 => Run.ret (i % 256) s1 w1
      | ReadResult.outOfBounds => Run.outOfBounds
      | ReadResult.outOfFuel => Run.outOfFuel := rfl

theorem exit_of_ret (fuel : Nat) (s : I2CSensor) (w : World) (address : Nat)
    (quantity : Int) (v : Nat) (s1 : I2CSensor) (w1 : World)
    (h : i2c_requestFrom fuel s w address quantity = Run.ret v s1 w1) :
    i2c_requestFrom_exit fuel s w address quantity = ReadResult.complete s1 w1 ∨
      ∃ i, i2c_requestFrom_exit fuel s w address quantity = ReadResult.expired i s1 w1 := by
  rw [i2c_requestFrom_of_exit] at h
  cases he : i2c_requestFrom_exit fuel s w address quantity with
  | complete s2 w2 =>
    rw [he] at h
    injection h with _ h2 h3
    subst h2 h3
    exact Or.inl rfl
  | expired i s2 w2 =>
    rw [he] at h
    injection h with _ h2 h3
    subst h2 h3
    exact Or.inr ⟨i, rfl⟩
  | outOfBounds => rw [he] at h; exact absurd h (by simp)
  | outOfFuel => rw [he] at h; exact absurd h (by simp)

theorem exit_complete_low (fuel : Nat) (s : I2CSensor) (w : World) (address : Nat)
    (quantity : Int) (s1 : I2CSensor) (w1 : World)
    (h : i2c_requestFrom_exit fuel s w address quantity = ReadResult.complete s1 w1) :
    s1._i2c_sda_state = false ∧ s1._i2c_scl_state = false := by
  unfold i2c_requestFrom_exit at h
  obtain ⟨g, -⟩ := loop_bus_complete _ _ _ _ _ _ _ h
  apply g
  · rw [i2c_beginTransmission_closed]; rfl
  · rw [i2c_beginTransmission_closed]; rfl

/-! ## C16: `i2c_requestFrom` never ends the transaction -/

/-- C16: entered on an idle bus (both lines released) or in the state left by
a write (both lines low), every call of `i2c_requestFrom` that returns, for any
quantity, slave and timer, changes the commanded SDA state while SCL is
commanded high exactly once, and that change is the falling edge of its start
condition: there is no rising edge, that is, no stop condition.  When the call
leaves through `return quantity` (no timeout) the recorded states are SDA low
and SCL low. -/
theorem i2c_requestFrom_no_stop (fuel : Nat) (s : I2CSensor) (w : World) (address : Nat)
    (quantity : Int) (v : Nat) (s1 : I2CSensor) (w1 : World)
    (hentry : (s._i2c_sda_state = true ∧ s._i2c_scl_state = true) ∨
      (s._i2c_sda_state = false ∧ s._i2c_scl_state = false))
    (hrun : i2c_requestFrom fuel s w address quantity = Run.ret v s1 w1) :
    sdaEdges s._i2c_sda_state s._i2c_scl_state (ops (emitted w w1)) = [false] ∧
      true ∉ sdaEdges s._i2c_sda_state s._i2c_scl_state (ops (emitted w w1)) ∧
      (i2c_requestFrom_exit fuel s w address quantity = ReadResult.complete s1 w1 →
        s1._i2c_sda_state = false ∧ s1._i2c_scl_state = false) := by
  have he := request_edges fuel s w address quantity s1 w1 (exit_of_ret _ _ _ _ _ _ _ _ hrun)
  have h1 : sdaEdges s._i2c_sda_state s._i2c_scl_state (ops (emitted w w1)) = [false] := by
    rw [he]
    rcases hentry with ⟨a, b⟩ | ⟨a, b⟩ <;> simp [a, b]
  refine ⟨h1, ?_, exit_complete_low fuel s w address quantity s1 w1⟩
  rw [h1]
  simp

/-- Two bytes requested, once from the idle bus and once right after a write,
from a slave that never stretches the clock. -/
theorem i2c_requestFrom_no_stop_witness :
    (∃ v s1 w1, i2c_requestFrom 1 idleSensor ackWorld 0x1E 2 = Run.ret v s1 w1 ∧
      (sdaEdges true true (ops (emitted ackWorld w1)) = [false] ∧
        true ∉ sdaEdges true true (ops (emitted ackWorld w1)) ∧
        (i2c_requestFrom_exit 1 idleSensor ackWorld 0x1E 2 = ReadResult.complete s1 w1 →
          s1._i2c_sda_state = false ∧ s1._i2c_scl_state = false))) ∧
    (∃ v s1 w1, i2c_requestFrom 1 (bothLow idleSensor) ackWorld 0x1E 2 = Run.ret v s1 w1 ∧
      (sdaEdges false false (ops (emitted ackWorld w1)) = [false] ∧
        true ∉ sdaEdges false false (ops (emitted ackWorld w1)) ∧
        (i2c_requestFrom_exit 1 (bothLow idleSensor) ackWorld 0x1E 2 =
            ReadResult.complete s1 w1 →
          s1._i2c_sda_state = false ∧ s1._i2c_scl_state = false))) :=
  ⟨⟨_, _, _, rfl,
      i2c_requestFrom_no_stop 1 idleSensor ackWorld 0x1E 2 _ _ _ (Or.inl ⟨rfl, rfl⟩) rfl⟩,
    ⟨_, _, _, rfl,
      i2c_requestFrom_no_stop 1 (bothLow idleSensor) ackWorld 0x1E 2 _ _ _
        (Or.inr ⟨rfl, rfl⟩) rfl⟩⟩

/-! ## C18: every received byte is acknowledged by the master -/

theorem sclPulses_busOps (es : List Event) :
    sclPulses es = (busOps es).count (LineOp.set Line.scl true) := by
  unfold sclPulses busOps
  rw [List.count_filter]
  decide

theorem sclPulses_append (a b : List Event) :
    sclPulses (a ++ b) = sclPulses a + sclPulses b := by
  simp [sclPulses, ops_append, List.count_append]

theorem count_repeatOps (o : LineOp) (l : List LineOp) (n : Nat) :
    (repeatOps n l).count o = n * l.count o := by
  induction n with
  | zero => simp [repeatOps]
  | succ n ih =>
    simp only [repeatOps, List.count_append, ih]
    ring

theorem sclPulses_begin (s : I2CSensor) (link v r : Nat) :
    sclPulses (startEvents s link) = 1 ∧ sclPulses (writeEvents (bothLow s) link v r) = 9 := by
  constructor
  · simp [sclPulses, ops_startEvents]
  · simp [sclPulses, ops_writeEvents, claimedWriteOps, bitOps]

/-- C18: in a call of `i2c_requestFrom` that leaves through `return quantity`
(no timeout), the bus-level trace after the address byte (line writes and SDA
samples, the SCL polls of the waits left out) is, for each of the
`quantity` bytes and the last one like the others: SDA released; eight times
SCL high, sample SDA, SCL low; then SDA low, SCL high, SCL low (the master
ACK, never a NACK).  SCL is raised 9 times per received byte, 9 times for the
address byte and once in the start condition. -/
theorem i2c_requestFrom_acks_every_byte (fuel : Nat) (s : I2CSensor) (w : World)
    (address : Nat) (quantity : Int) (s1 : I2CSensor) (w1 : World)
    (hcomplete : i2c_requestFrom_exit fuel s w address quantity = ReadResult.complete s1 w1) :
    busOps (emitted (i2c_beginTransmission s w address 1).2 w1) =
        repeatOps quantity.toNat readByteOps ∧
      readByteOps =
        [LineOp.set Line.sda true,
         LineOp.set Line.scl true, LineOp.sample Line.sda, LineOp.set Line.scl false,
         LineOp.set Line.scl true, LineOp.sample Line.sda, LineOp.set Line.scl false,
         LineOp.set Line.scl true, LineOp.sample Line.sda, LineOp.set Line.scl false,
         LineOp.set Line.scl true, LineOp.sample Line.sda, LineOp.set Line.scl false,
         LineOp.set Line.scl true, LineOp.sample Line.sda, LineOp.set Line.scl false,
         LineOp.set Line.scl true, LineOp.sample Line.sda, LineOp.set Line.scl false,
         LineOp.set Line.scl true, LineOp.sample Line.sda, LineOp.set Line.scl false,
         LineOp.set Line.scl true, LineOp.sample Line.sda, LineOp.set Line.scl false,
         LineOp.set Line.sda false, LineOp.set Line.scl true, LineOp.set Line.scl false] ∧
      sclPulses (emitted (i2c_beginTransmission s w address 1).2 w1) = 9 * quantity.toNat ∧
      sclPulses (emitted w w1) = 1 + 9 + 9 * quantity.toNat := by
  obtain ⟨es, hes, hem, -⟩ := request_log fuel s w address quantity s1 w1 (Or.inl hcomplete)
  have hb : busOps es = repeatOps quantity.toNat readByteOps := by
    unfold i2c_requestFrom_exit at hcomplete
    obtain ⟨-, es2, hes2, hb2⟩ := loop_bus_complete _ _ _ _ _ _ _ hcomplete
    rw [← hes, emitted_append _ _ es2 hes2]
    exact hb2
  have hp : sclPulses es = 9 * quantity.toNat := by
    rw [sclPulses_busOps, hb, count_repeatOps]
    have : readByteOps.count (LineOp.set Line.scl true) = 9 := by decide
    rw [this]
    ring
  refine ⟨by rw [hes]; exact hb, rfl, by rw [hes]; exact hp, ?_⟩
  have hs := sclPulses_begin s w._i2c_HTSPB (((address <<< 1) ||| 1) % 256)
    (w.portIn w.reads w._i2c_HTSPB s._i2c_sda)
  rw [hem, sclPulses_append, sclPulses_append, hs.1, hs.2, hp]

/-- Two bytes requested from a slave that never stretches the clock. -/
theorem i2c_requestFrom_acks_every_byte_witness :
    ∃ s1 w1, i2c_requestFrom_exit 1 idleSensor ackWorld 0x1E 2 = ReadResult.complete s1 w1 ∧
      busOps (emitted (i2c_beginTransmission idleSensor ackWorld 0x1E 1).2 w1) =
        repeatOps 2 readByteOps ∧
      sclPulses (emitted (i2c_beginTransmission idleSensor ackWorld 0x1E 1).2 w1) = 18 ∧
      sclPulses (emitted ackWorld w1) = 28 := by
  obtain ⟨h1, -, h3, h4⟩ :=
    i2c_requestFrom_acks_every_byte 1 idleSensor ackWorld 0x1E 2 _ _ rfl
  exact ⟨_, _, rfl, h1, h3, h4⟩

/-! ## C20: the state left by a timeout -/

theorem getLast_cons_concat (x : LineOp) (l : List LineOp) (y : LineOp) :
    (x :: (l ++ [y])).getLast? = some y := by
  induction l generalizing x with
  | nil => rfl
  | cons a l ih => simpa [List.getLast?_cons_cons] using ih a

/-- C20: when `i2c_requestFrom` leaves through `return i` in the clock-stretch
wait, the last bus-level operation of the call, hence its last line write, is
SCL := high; the recorded states of SDA and SCL are both released, as on an
idle bus; the last change of SDA made while SCL was high is the falling edge
of the start condition, so no stop condition follows it (and unless the call
was entered with SDA recorded low and SCL recorded high, that falling edge is
the only such change); the call returns `i` as a `ubyte`.  A call that leaves
through `return quantity` instead has both states low. -/
theorem i2c_requestFrom_timeout_state (fuel : Nat) (s : I2CSensor) (w : World)
    (address : Nat) (quantity : Int) (i : Nat) (s1 : I2CSensor) (w1 : World)
    (htimeout : i2c_requestFrom_exit fuel s w address quantity = ReadResult.expired i s1 w1) :
    (busOps (emitted w w1)).getLast? = some (LineOp.set Line.scl true) ∧
      s1._i2c_sda_state = true ∧ s1._i2c_scl_state = true ∧
      s1._i2c_sda_state = idleSensor._i2c_sda_state ∧
      s1._i2c_scl_state = idleSensor._i2c_scl_state ∧
      (sdaEdges s._i2c_sda_state s._i2c_scl_state (ops (emitted w w1))).getLast? =
        some false ∧
      (¬ (s._i2c_sda_state = false ∧ s._i2c_scl_state = true) →
        sdaEdges s._i2c_sda_state s._i2c_scl_state (ops (emitted w w1)) = [false]) ∧
      i2c_requestFrom fuel s w address quantity = Run.ret (i % 256) s1 w1 ∧
      ∀ (fuel2 : Nat) (w2 : World) (address2 : Nat) (quantity2 : Int) (s3 : I2CSensor)
        (w3 : World),
        i2c_requestFrom_exit fuel2 s w2 address2 quantity2 = ReadResult.complete s3 w3 →
          s3._i2c_sda_state = false ∧ s3._i2c_scl_state = false := by
  have he := request_edges fuel s w address quantity s1 w1 (Or.inr ⟨i, htimeout⟩)
  obtain ⟨es, hes, hem, -⟩ := request_log fuel s w address quantity s1 w1
    (Or.inr ⟨i, htimeout⟩)
  have hx := htimeout
  unfold i2c_requestFrom_exit at hx
  obtain ⟨es2, c, j, -, -, -, hes2, hb2⟩ := loop_bus_expired _ _ _ _ _ _ _ _ hx
  obtain ⟨c2, -, -, -, -, g1, g2, -⟩ := loop_expired_gen _ _ _ _ _ _ _ _ hx
  have hes3 : es = es2 := by
    rw [← hes, emitted_append _ _ es2 hes2]
  subst hes3
  refine ⟨?_, g1, g2, g1, g2, ?_, ?_, ?_, ?_⟩
  · rw [hem, busOps_append, hb2]
    simp [List.getLast?_append, getLast_cons_concat]
  · rw [he]
    simp [List.getLast?_append]
  · intro hne
    rw [he]
    cases ha : s._i2c_sda_state <;> cases hb : s._i2c_scl_state <;> simp_all
  · rw [i2c_requestFrom_of_exit, htimeout]
  · intro fuel2 w2 address2 quantity2 s3 w3 h
    exact exit_complete_low fuel2 s w2 address2 quantity2 s3 w3 h

/-- The slave of `stallWorld` delivers one byte and three bits and then holds
SCL low: the call for two bytes leaves through `return 1`. -/
theorem i2c_requestFrom_timeout_state_witness :
    ∃ s1 w1, i2c_requestFrom_exit 1 idleSensor stallWorld 0x1E 2 =
        ReadResult.expired 1 s1 w1 ∧
      (busOps (emitted stallWorld w1)).getLast? = some (LineOp.set Line.scl true) ∧
      s1._i2c_sda_state = true ∧ s1._i2c_scl_state = true ∧
      sdaEdges true true (ops (emitted stallWorld w1)) = [false] ∧
      i2c_requestFrom 1 idleSensor stallWorld 0x1E 2 = Run.ret 1 s1 w1 := by
  obtain ⟨h1, h2, h3, -, -, -, h7, h8, -⟩ :=
    i2c_requestFrom_timeout_state 1 idleSensor stallWorld 0x1E 2 1 _ _ rfl
  exact ⟨_, _, rfl, h1, h2, h3, h7 (by decide), h8⟩

/-! ## C17: SDA is stable while SCL is high -/

theorem i2c_write_each_edges (vs : List Nat) (s : I2CSensor) (w : World)
    (h1 : s._i2c_sda_state = false) (h2 : s._i2c_scl_state = false) :
    (i2c_write_each vs s w).1._i2c_sda_state = false ∧
      (i2c_write_each vs s w).1._i2c_scl_state = false ∧
      ∃ es, (i2c_write_each vs s w).2.log = w.log ++ es ∧
        sdaEdges false false (ops es) = [] ∧
        linesAfter false false (ops es) = (false, false) := by
  induction vs generalizing s w with
  | nil => exact ⟨h1, h2, [], by simp [i2c_write_each], rfl, rfl⟩
  | cons v vs ih =>
    simp only [i2c_write_each, i2c_write_eq]
    obtain ⟨g1, g2, es, hes, he, hl⟩ := ih (bothLow s)
      { w with reads := w.reads + 1,
               log := w.log ++
                 writeEvents s w._i2c_HTSPB v (w.portIn w.reads w._i2c_HTSPB s._i2c_sda) }
      rfl rfl
    have hw := write_edges false s w._i2c_HTSPB v (w.portIn w.reads w._i2c_HTSPB s._i2c_sda)
    refine ⟨g1, g2,
      writeEvents s w._i2c_HTSPB v (w.portIn w.reads w._i2c_HTSPB s._i2c_sda) ++ es, ?_, ?_, ?_⟩
    · rw [hes, List.append_assoc]
    · rw [ops_append, sdaEdges_append, hw.1, hw.2.1, he]
      rfl
    · rw [ops_append, linesAfter_append, hw.2.1, hl]

theorem i2c_endTransmission_log (s : I2CSensor) (w : World) :
    ∃ es, (i2c_endTransmission s w).2.log = w.log ++ es ∧
      ops es = [LineOp.set Line.sda false, LineOp.set Line.scl true,
        LineOp.set Line.sda true] :=
  ⟨[Event.write Line.sda false w._i2c_HTSPB (maskFor s false s._i2c_scl_state),
     Event.write Line.scl true w._i2c_HTSPB (maskFor s false true),
     Event.write Line.sda true w._i2c_HTSPB (maskFor s true true)],
    by simp [i2c_endTransmission, _i2c_sda_write, _i2c_scl_write, HTSPBsetupIO, maskFor],
    rfl⟩

/-- C17: a single-byte `i2c_write` entered with SCL commanded low makes no SDA
write while SCL is commanded high.  Consequently, in a transaction started
from the idle state and made of `i2c_beginTransmission`, any number of
single-byte writes and `i2c_endTransmission`, the commanded SDA state changes
while SCL is commanded high exactly twice: first a falling edge (in the start
sequence), last a rising edge (in the stop sequence). -/
theorem sda_stable_while_scl_high (s : I2CSensor) (w : World) (address write : Nat)
    (values : List Nat)
    (hidle : s._i2c_sda_state = true ∧ s._i2c_scl_state = true) :
    (∀ (s2 : I2CSensor) (w2 : World) (v : Nat), s2._i2c_scl_state = false →
        sdaWritesWhileHigh false (ops (emitted w2 (i2c_write s2 w2 v).2.2)) = 0) ∧
      sdaEdges s._i2c_sda_state s._i2c_scl_state
          (ops (emitted w (transaction s w address write values).2)) = [false, true] ∧
      sdaEdges s._i2c_sda_state s._i2c_scl_state (ops (startEvents s w._i2c_HTSPB)) =
        [false] := by
  rw [hidle.1, hidle.2]
  refine ⟨?_, ?_, ?_⟩
  · intro s2 w2 v _
    rw [i2c_write_emitted]
    exact (write_edges false s2 _ _ _).2.2
  · have hb := i2c_beginTransmission_closed s w address write
    obtain ⟨-, -, es, hes, he, hl⟩ := i2c_write_each_edges values
      (i2c_beginTransmission s w address write).1 (i2c_beginTransmission s w address write).2
      (by rw [hb]; rfl) (by rw [hb]; rfl)
    obtain ⟨es2, hes2, hops2⟩ := i2c_endTransmission_log
      (i2c_write_each values (i2c_beginTransmission s w address write).1
        (i2c_beginTransmission s w address write).2).1
      (i2c_write_each values (i2c_beginTransmission s w address write).1
        (i2c_beginTransmission s w address write).2).2
    have hem : emitted w (transaction s w address write values).2 =
        startEvents s w._i2c_HTSPB ++
          writeEvents (bothLow s) w._i2c_HTSPB (((address <<< 1) ||| write) % 256)
            (w.portIn w.reads w._i2c_HTSPB s._i2c_sda) ++ es ++ es2 := by
      apply emitted_append
      simp only [transaction]
      rw [hes2, hes, hb]
      simp only [List.append_assoc]
    have h1 := start_edges true true s w._i2c_HTSPB
    have h2 := write_edges false (bothLow s) w._i2c_HTSPB (((address <<< 1) ||| write) % 256)
      (w.portIn w.reads w._i2c_HTSPB s._i2c_sda)
    simp only [hem, ops_append, sdaEdges_append, linesAfter_append, h1.1, h1.2, h2.1, h2.2.1,
      he, hl, hops2]
    rfl
  · exact (start_edges true true s w._i2c_HTSPB).1

/-- A transaction writing the three bytes 0x41, 0x42, 0x43 to address 0x1E. -/
theorem sda_stable_while_scl_high_witness :
    (∀ (s2 : I2CSensor) (w2 : World) (v : Nat), s2._i2c_scl_state = false →
        sdaWritesWhileHigh false (ops (emitted w2 (i2c_write s2 w2 v).2.2)) = 0) ∧
      sdaEdges idleSensor._i2c_sda_state idleSensor._i2c_scl_state
          (ops (emitted nackSecondWorld
            (transaction idleSensor nackSecondWorld 0x1E 0 [0x41, 0x42, 0x43]).2)) =
        [false, true] ∧
      sdaEdges idleSensor._i2c_sda_state idleSensor._i2c_scl_state
          (ops (startEvents idleSensor nackSecondWorld._i2c_HTSPB)) = [false] :=
  sda_stable_while_scl_high idleSensor nackSecondWorld 0x1E 0 [0x41, 0x42, 0x43] ⟨rfl, rfl⟩

end I2C
